import Mathlib

set_option maxRecDepth 100000

/-!
Verification of the FilePulse content-addressed file-sharing engine.

This file gives a shallow embedding, in Lean 4, of the core logic of the
FilePulse repository (src/app): the filename sanitizer and configuration
parser (pure string functions), and the ingestion, retrieval and retention
sweep operations, modelled as explicit state transformations over a record
store and a disk map.  Python strings are embedded as List Char (one element
per code point, matching Python string indexing and len), byte strings as
List Nat, times as integer milliseconds since the Unix epoch in UTC
(datetime.utcnow and datetime.now(timezone.utc) both yield UTC instants;
the tz-normalisation in download.py makes naive stored values UTC, so a
single integer timeline is faithful), and the database as a list of rows.
-/

/-! ## Character-level utilities shared by the sanitizer and the parser -/

/-- Whitespace as recognised by Python, on code points: the set matched by
the regex class backslash-s on str patterns, by str.strip with no argument
and by str.isspace.  CPython uses Py_UNICODE_ISSPACE for all three, which
accepts the ASCII whitespace controls (including 0x1c-0x1f) and the
Unicode White_Space code points. -/
def isPySpaceN (n : Nat) : Bool :=
  n = 32 || n = 9 || n = 10 || n = 13 || n = 11 || n = 12 ||
  (28 ≤ n && n ≤ 31) || n = 0x85 || n = 0xa0 || n = 0x1680 ||
  (0x2000 ≤ n && n ≤ 0x200a) || n = 0x2028 || n = 0x2029 ||
  n = 0x202f || n = 0x205f || n = 0x3000

/-- Whitespace as recognised by Python, on characters. -/
def isPySpace (c : Char) : Bool :=
  isPySpaceN c.toNat

/-- First code points of the contiguous zero-to-nine runs of the Unicode
decimal-digit category Nd (Unicode 15.0, as shipped with current CPython).
The regex class backslash-d on an str pattern and float() both accept
exactly the Nd digits, each run carrying the values 0 to 9 in order (a
Unicode stability guarantee), so the program parses numerals written in
any of these scripts. -/
def ndBases : List Nat :=
  [0x30, 0x660, 0x6F0, 0x7C0, 0x966, 0x9E6, 0xA66, 0xAE6, 0xB66, 0xBE6,
   0xC66, 0xCE6, 0xD66, 0xDE6, 0xE50, 0xED0, 0xF20, 0x1040, 0x1090, 0x17E0,
   0x1810, 0x1946, 0x19D0, 0x1A80, 0x1A90, 0x1B50, 0x1BB0, 0x1C40, 0x1C50,
   0xA620, 0xA8D0, 0xA900, 0xA9D0, 0xA9F0, 0xAA50, 0xABF0, 0xFF10,
   0x104A0, 0x10D30, 0x11066, 0x110F0, 0x11136, 0x111D0, 0x112F0, 0x11450,
   0x114D0, 0x11650, 0x116C0, 0x11730, 0x118E0, 0x11950, 0x11C50, 0x11D50,
   0x11DA0, 0x11F50, 0x16A60, 0x16AC0, 0x16B50, 0x1D7CE, 0x1D7D8, 0x1D7E2,
   0x1D7EC, 0x1D7F6, 0x1E140, 0x1E2F0, 0x1E4F0, 0x1E950, 0x1FBF0]

/-- Base of the Nd digit run containing the code point, when there is one. -/
def ndBaseOf (n : Nat) : Option Nat :=
  ndBases.find? (fun b => b ≤ n && n ≤ b + 9)

/-- Decimal digit test matching the regex class backslash-d on str
patterns: every Unicode Nd digit, not only the ASCII ones. -/
def isPyDigit (c : Char) : Bool :=
  (ndBaseOf c.toNat).isSome

/-- Numeric value of a decimal digit: its offset inside its Nd run. -/
def digitVal (c : Char) : Nat :=
  c.toNat - (ndBaseOf c.toNat).getD 0

/-- ASCII upper-casing of one character, modelling str.upper on the ASCII
range (the only range relevant to the B, KB, MB, GB suffix matching in
config.py; on every other character relevant here str.upper is the
identity). -/
def upChar (c : Char) : Char :=
  if 97 ≤ c.toNat ∧ c.toNat ≤ 122 then Char.ofNat (c.toNat - 32) else c

/-- Strip characters satisfying p from both ends of a list, modelling
str.strip (with the strip set given by p). -/
def stripBoth (p : Char → Bool) (l : List Char) : List Char :=
  ((l.dropWhile p).reverse.dropWhile p).reverse

/-- Digits of a decimal numeral folded into the number it denotes, using
the Unicode digit values (float() converts non-ASCII decimal digits to
their values before parsing). -/
def digitsToNat (l : List Char) : Nat :=
  l.foldl (fun a c => a * 10 + digitVal c) 0

/-- Decimal digits of a natural number, via Nat.repr. -/
def natToChars (n : Nat) : List Char :=
  (Nat.repr n).toList

/-! ## The filename sanitizer, from src/app/utils/security.py

The first step of sanitize_filename is bleach.clean(filename, tags=[],
strip=True), an external-library call that strips HTML markup; it is the
identity on every string containing none of the characters <, > and &.
The embedding covers exactly those inputs (the theorems below carry that
hypothesis where they quantify over inputs), and models the remaining
steps of the function exactly. -/

/-- Input strings on which the bleach.clean step of sanitize_filename acts
as the identity: no HTML-special characters. -/
def htmlFree (l : List Char) : Prop :=
  '<' ∉ l ∧ '>' ∉ l ∧ '&' ∉ l

instance (l : List Char) : Decidable (htmlFree l) := by
  unfold htmlFree; infer_instance

/-- Last path component, modelling pathlib PurePosixPath(s).name: split on
the slash, discard empty components and single-dot components, and take the
last remaining component (empty when none remains). -/
def pyLastComponent (l : List Char) : List Char :=
  (((l.splitOn '/').filter (fun c => !(c.isEmpty) && !(c = ['.'] : Bool))).getLast?).getD []

/-- Characters removed by the sanitizer: the characters < > : double-quote
slash backslash pipe question-mark star, and the control range 0x00-0x1f,
per the character class in security.py. -/
def badFileChar (c : Char) : Bool :=
  c = '<' || c = '>' || c = ':' || c = '"' || c = '/' || c = '\\' ||
  c = '|' || c = '?' || c = '*' || c.toNat ≤ 0x1f

/-- Collapse every maximal run of Python whitespace into a single space,
modelling re.sub applied with the pattern backslash-s-plus and a single
space replacement. -/
def collapseWs : List Char → List Char
  | [] => []
  | [c] => if isPySpace c then [' '] else [c]
  | c1 :: c2 :: rest =>
      if isPySpace c1 && isPySpace c2 then collapseWs (c2 :: rest)
      else (if isPySpace c1 then ' ' else c1) :: collapseWs (c2 :: rest)

/-- Characters stripped from both ends by the strip call in
sanitize_filename: dot, space and hyphen. -/
def dotSpaceHyphen (c : Char) : Bool :=
  c = '.' || c = ' ' || c = '-'

/-- Python slicing l[:m] for a possibly negative bound m. -/
def pyTake (l : List Char) (m : Int) : List Char :=
  if 0 ≤ m then l.take m.toNat else l.take (l.length - (-m).toNat)

/-- Split at the last dot, modelling s.rsplit(dot, 1): none when the list
has no dot, otherwise the part before the last dot and the part after it. -/
def rsplitDot (l : List Char) : Option (List Char × List Char) :=
  let r := l.reverse
  let ext := r.takeWhile (fun c => !(c = '.' : Bool))
  let rest := r.dropWhile (fun c => !(c = '.' : Bool))
  match rest with
  | [] => none
  | _ :: nameR => some (nameR.reverse, ext.reverse)

/-- Cleaning stages of sanitize_filename before the length cap: last path
component, removal of dangerous characters, whitespace collapse, strip of
leading and trailing dots, spaces and hyphens. -/
def cleanedName (l : List Char) : List Char :=
  stripBoth dotSpaceHyphen
    (collapseWs ((pyLastComponent l).filter (fun c => !(badFileChar c))))

/-- Fallback name substituted when the result would be empty or
whitespace-only. -/
def unnamedFile : List Char := "unnamed_file".toList

/-- Embeds sanitize_filename from src/app/utils/security.py (for inputs on
which the initial bleach.clean call is the identity, see htmlFree): clean,
then cap the length at 255 preserving the part after the last dot, then
substitute the fallback when empty or whitespace-only. -/
def sanitize_filename (l : List Char) : List Char :=
  let f := cleanedName l
  let g :=
    if 255 < f.length then
      match rsplitDot f with
      | some (name, ext) => pyTake name (255 - (ext.length : Int) - 1) ++ '.' :: ext
      | none => f.take 255
    else f
  if g.all isPySpace then unnamedFile else g

/-! ## The configuration size parser, from src/app/config.py

Settings.parse_file_size accepts an int unchanged; a string is stripped,
upper-cased and matched against the anchored regular expression
  digits (optional: dot digits) (whitespace star) (optional: B KB MB GB)
whose digit class is the Unicode Nd category, and on a match the value is
computed as int(float(number) * units[unit]).  The numeric conversion is
modelled bit-exactly: float() is the correctly-rounded (round to nearest,
ties to even) IEEE-754 binary64 value of the decimal numeral, with
overflow to infinity (CPython uses a correctly rounded strtod); the unit
multipliers 1, 1024, 1048576 and 1073741824 are powers of two, so the
product is exact in binary64 up to a further overflow check; int()
truncates, and int() of an infinity raises OverflowError, which fails the
configuration load with an error distinct from the ValueError of a failed
match. -/

/-- Fractional-part step of the size pattern: on the remainder after the
integer digits, an optional dot followed by at least one digit yields the
fraction digits and the rest; otherwise the fraction is empty and the
remainder is unchanged (the optional regex group matching empty). -/
def fracSplit (r1 : List Char) : List Char × List Char :=
  match r1 with
  | c :: rest =>
      if c = '.' then
        let f := rest.takeWhile isPyDigit
        if f.isEmpty then ([], r1) else (f, rest.dropWhile isPyDigit)
      else ([], r1)
  | [] => ([], r1)

/-- Unit multiplier accepted by the upper-cased pattern of parse_file_size:
no suffix and B give 1, KB 1024, MB 1024 squared, GB 1024 cubed; anything
else fails the match. -/
def unitMult (r : List Char) : Option Nat :=
  if r = [] then some 1
  else if r = ['B'] then some 1
  else if r = ['K', 'B'] then some 1024
  else if r = ['M', 'B'] then some (1024 * 1024)
  else if r = ['G', 'B'] then some (1024 * 1024 * 1024)
  else none

/-- Anchored match of the size pattern on an already stripped and
upper-cased string: integer digits, an optional fractional part, optional
whitespace, an optional unit.  Returns the integer digits, the fraction
digits and the unit multiplier on success; the numeric conversion is a
separate step, as in the code (the regex match happens before float() and
int() run). -/
def matchNumber (cs : List Char) : Option (List Char × List Char × Nat) :=
  let d1 := cs.takeWhile isPyDigit
  let r1 := cs.dropWhile isPyDigit
  if d1.isEmpty then none else
  let fr := fracSplit r1
  let r3 := fr.2.dropWhile isPySpace
  match unitMult r3 with
  | none => none
  | some m => some (d1, fr.1, m)

/-- Decision of 2 to the e (an integer power) being at most num/den. -/
def twoPowLe (num den : Nat) (e : Int) : Bool :=
  if 0 ≤ e then den * 2 ^ e.toNat ≤ num else den ≤ num * 2 ^ (-e).toNat

/-- Floor of the base-two logarithm of a positive natural, by repeated
halving on a structural fuel (so that the kernel can evaluate it). -/
def natLog2Aux : Nat → Nat → Nat
  | 0, _ => 0
  | fuel + 1, n => if 2 ≤ n then natLog2Aux fuel (n / 2) + 1 else 0

/-- Floor of the base-two logarithm of a positive natural; 0 at 0. -/
def natLog2 (n : Nat) : Nat :=
  natLog2Aux n n

/-- Floor of the base-two logarithm of num/den (num, den positive): the
true value lies within one of the difference of the natLog2 values, so
one test settles it. -/
def floorLog2 (num den : Nat) : Int :=
  let a : Int := natLog2 num
  let b : Int := natLog2 den
  if twoPowLe num den (a - b) then a - b else a - b - 1

/-- Round num/den to the nearest integer multiple of 2 to the g, ties to
even, returned as the multiplier. -/
def rnAtGrid (num den : Nat) (g : Int) : Nat :=
  let n' := if 0 ≤ g then num else num * 2 ^ (-g).toNat
  let d' := if 0 ≤ g then den * 2 ^ g.toNat else den
  let q := n' / d'
  let r := n' % d'
  if d' < 2 * r then q + 1 else if 2 * r < d' then q else if q % 2 = 0 then q else q + 1

/-- Decision of m times 2 to the g reaching 2 to the 1024, the IEEE-754
binary64 overflow boundary for a round-to-nearest result. -/
def dyadicOverflow (m : Nat) (g : Int) : Bool :=
  if 0 ≤ g then 2 ^ 1024 ≤ m * 2 ^ g.toNat else 2 ^ (1024 + (-g).toNat) ≤ m

/-- Truncation of the nonnegative dyadic m times 2 to the g to an integer,
the effect of int() on a nonnegative finite float. -/
def dyadicFloor (m : Nat) (g : Int) : Nat :=
  if 0 ≤ g then m * 2 ^ g.toNat else m / 2 ^ (-g).toNat

/-- Correctly rounded IEEE-754 binary64 value of the nonnegative rational
num/den, as the pair of a mantissa and a binary exponent (value m times 2
to the g), or none on overflow to infinity: round to nearest, ties to
even, at the grid of the leading binade clamped at the subnormal grid
2 to the -1074; a rounded magnitude reaching 2 to the 1024 is infinite.
This is the value CPython's float() returns for the matched numeral. -/
def roundDouble (num den : Nat) : Option (Nat × Int) :=
  let e := floorLog2 num den
  let g := if e - 52 < -1074 then (-1074 : Int) else e - 52
  let m := rnAtGrid num den g
  if dyadicOverflow m g then none else some (m, g)

/-- Embeds int(float(number) * units[unit]) from config.py: the numeral
digits give the exact rational, float() rounds it to binary64 (none on
overflow), the product with the power-of-two unit multiplier is exact in
binary64 up to its own overflow check, and int() truncates; none models
the OverflowError that int() raises on an infinite float. -/
def pyIntOfSize (d1 d2 : List Char) (mult : Nat) : Option Nat :=
  let num := digitsToNat (d1 ++ d2)
  let den := (10 : Nat) ^ d2.length
  match roundDouble num den with
  | none => none
  | some (m, g) =>
      if dyadicOverflow (m * mult) g then none
      else some (dyadicFloor (m * mult) g)

/-- Value of the max_file_size field before validation: the pydantic field
has type Union of str and int. -/
inductive ConfigValue where
  | int (n : Int)
  | str (s : List Char)
  deriving DecidableEq

/-- Exceptions raised by Settings.parse_file_size: the ValueError with its
message when the string fails the pattern, and the OverflowError raised by
int() when the float conversion overflows to infinity.  Either failure
aborts configuration loading. -/
inductive SizeError where
  | invalidFormat (msg : List Char)
  | overflow
  deriving DecidableEq

/-- Embeds Settings.parse_file_size from src/app/config.py: an int is
returned as-is; a string is stripped, upper-cased and matched against the
size pattern; a failed match raises ValueError carrying the message built
by the code, and a successful match converts the numeral through binary64
as int(float(number) * unit), raising OverflowError when the float is
infinite. -/
def parse_file_size (v : ConfigValue) : Except SizeError Int :=
  match v with
  | .int n => .ok n
  | .str s =>
      match matchNumber ((stripBoth isPySpace s).map upChar) with
      | none => .error (.invalidFormat ("Invalid file size format: ".toList ++ s ++
          ". Use formats like: 100MB, 1GB, 500MB".toList))
      | some (d1, d2, mult) =>
          match pyIntOfSize d1 d2 mult with
          | some bytes => .ok (bytes : Int)
          | none => .error .overflow

/-- Case-insensitive unit acceptance, written from the specification words:
the recognised suffixes are B, KB, MB and GB in either case. -/
def unitOkCI (r : List Char) : Bool :=
  match r with
  | [] => true
  | [c] => c = 'B' || c = 'b'
  | [c1, c2] =>
      (c1 = 'K' || c1 = 'k' || c1 = 'M' || c1 = 'm' || c1 = 'G' || c1 = 'g') &&
      (c2 = 'B' || c2 = 'b')
  | _ => false

/-- Shape predicate written from the specification words: a number (digits
with an optional fractional part) followed by optional whitespace and an
optional recognised suffix, case-insensitive, after stripping outer
whitespace.  Used to state that parse_file_size fails on exactly the
strings that are not of this shape. -/
def isSizeShape (s : List Char) : Bool :=
  let cs := stripBoth isPySpace s
  let d1 := cs.takeWhile isPyDigit
  let r1 := cs.dropWhile isPyDigit
  if d1.isEmpty then false else
  unitOkCI ((fracSplit r1).2.dropWhile isPySpace)

/-! ## The data model, from src/app/models.py

FileRecord is the persistent row type (the FileShare of the specification);
one row per logical share.  The file_md5 column is constructed by
upload.py, queried by scheduler.py and asserted by the repository tests
(models.py omits its column declaration, but every caller and test uses
the attribute, so the row type carries it).  Times are integer UTC
milliseconds. -/

structure FileRecord where
  id : Nat
  filename : List Char
  original_filename : List Char
  share_code : List Char
  uploader_ip : List Char
  upload_time : Nat
  expiry_time : Nat
  file_path : List Char
  file_size : Nat
  file_md5 : List Char
  deriving DecidableEq

/-- State touched by the engine: the database rows, the disk (an
association list from path to stored bytes), and the id sequence of the
autoincrement primary key. -/
structure SystemState where
  records : List FileRecord
  disk : List (List Char × List Nat)
  nextId : Nat
  deriving DecidableEq

/-- Paths present on disk. -/
def diskPaths (st : SystemState) : List (List Char) :=
  st.disk.map Prod.fst

/-- Observable side-effect events of one engine operation, in program
order: reading the request body, raising an HTTP error, computing the
content digest, the duplicate-digest lookup, the bulk expiry extension,
writing the blob to disk, inserting a row, deleting a row, unlinking a
physical file, and committing the transaction. -/
inductive Ev where
  | readBytes
  | raiseHttp (status : Nat) (detail : List Char)
  | computeHash
  | queryByDigest
  | extendExpiry (digest : List Char) (newExpiry : Nat)
  | diskWrite (path : List Char)
  | dbInsert (id : Nat)
  | deleteRow (id : Nat)
  | unlink (path : List Char)
  | dbCommit
  deriving DecidableEq

/-- Configured settings used by the engine (src/app/config.py): the upload
directory, the parsed byte limit and the retention window in days. -/
structure EngineSettings where
  upload_dir : List Char
  max_file_size : Nat
  file_expiry_days : Nat
  deriving DecidableEq

/-- Milliseconds per day, the factor applied by timedelta(days=n) on the
millisecond timeline. -/
def msPerDay : Nat := 86400000

/-- Civil date (year, month, day) of a day count since 1970-01-01,
following the standard days-to-civil conversion used by the proleptic
Gregorian calendar that datetime.utcnow reports. -/
def civilFromDays (z0 : Nat) : Nat × Nat × Nat :=
  let z := z0 + 719468
  let era := z / 146097
  let doe := z % 146097
  let yoe := (doe - doe / 1460 + doe / 36524 - doe / 146096) / 365
  let y := yoe + era * 400
  let doy := doe - (365 * yoe + yoe / 4 - yoe / 100)
  let mp := (5 * doy + 2) / 153
  let d := doy - (153 * mp + 2) / 5 + 1
  let m := if mp < 10 then mp + 3 else mp - 9
  (if m ≤ 2 then y + 1 else y, m, d)

/-- Zero-padded two-digit decimal, as printed by strftime codes m and d. -/
def pad2 (n : Nat) : List Char :=
  if n < 10 then '0' :: natToChars n else natToChars n

/-- Date-nested directory fragment year/month/day, modelling
upload_time.strftime applied to the pattern Y/m/d in upload.py. -/
def datePath (nowMs : Nat) : List Char :=
  let c := civilFromDays (nowMs / msPerDay)
  natToChars c.1 ++ '/' :: (pad2 c.2.1 ++ '/' :: pad2 c.2.2)

/-- Record with the larger expiry_time, keeping the first on ties; the
fold step of the order-by-expiry-descending first-row query. -/
def betterRec (b r : FileRecord) : FileRecord :=
  if b.expiry_time < r.expiry_time then r else b

/-- First row of a result set ordered by expiry_time descending: the
element with maximal expiry_time, the earliest such element on ties. -/
def pickLatest : List FileRecord → Option FileRecord
  | [] => none
  | r :: rs => some (rs.foldl betterRec r)

/-- Embeds the duplicate-digest lookup of upload.py: select the FileRecord
rows whose file_md5 equals the digest, order by expiry_time descending,
and take the first. -/
def findLatestByDigest (rs : List FileRecord) (d : List Char) : Option FileRecord :=
  pickLatest (rs.filter (fun r => decide (r.file_md5 = d)))

/-- Round-to-nearest with ties to even of n / 1048576, the value printed
for the megabyte figure of the 413 message by the Python format f-string
(exact for every limit whose float division is exact, in particular every
whole-megabyte limit). -/
def mbRound (n : Nat) : Nat :=
  let q := n / 1048576
  let r := n % 1048576
  if 524288 < r then q + 1 else if r < 524288 then q else if q % 2 = 0 then q else q + 1

/-- Message of the 413 rejection raised by upload_file, stating the
configured limit both in megabytes and in exact bytes. -/
def sizeErrMsg (cfg : EngineSettings) : List Char :=
  "File size exceeds maximum allowed size of ".toList ++
    natToChars (mbRound cfg.max_file_size) ++ "MB (".toList ++
    natToChars cfg.max_file_size ++ " bytes)".toList

/-- Request-level inputs of one upload call: the body bytes, the optional
client filename, the client address, the current UTC time in milliseconds,
and the share code produced by the retry-until-unique generation loop (the
loop postcondition, that the code is absent from the store, is a hypothesis
of the theorems). -/
structure UploadInput where
  content : List Nat
  filename : Option (List Char)
  clientIp : List Char
  now : Nat
  shareCode : List Char
  deriving DecidableEq

/-- Successful upload response, from the dictionary returned by
upload_file. -/
structure UploadResponse where
  share_code : List Char
  filename : List Char
  file_size : Nat
  upload_time : Nat
  expiry_time : Nat
  deriving DecidableEq

deriving instance DecidableEq for Except

/-- Outcome of one upload call: the post state, the response or the raised
HTTP error (status and detail), and the event trace in program order. -/
structure UploadOutcome where
  state : SystemState
  result : Except (Nat × List Char) UploadResponse
  trace : List Ev
  deriving DecidableEq

/-- Retention window in milliseconds: timedelta(days=settings.file_expiry_days). -/
def retentionMs (cfg : EngineSettings) : Nat :=
  cfg.file_expiry_days * msPerDay

/-- Embeds the bulk expiry extension issued by upload_file on a duplicate
digest: update every row whose file_md5 equals the digest to the new
expiry (the update carries no expiry guard on the individual rows; it is
issued only when the new expiry exceeds the maximal existing one). -/
def extendExpiryRows (rs : List FileRecord) (d : List Char) (e : Nat) : List FileRecord :=
  rs.map (fun r => if r.file_md5 = d then { r with expiry_time := e } else r)

/-- Row inserted by upload_file on a duplicate digest: fresh share code and
expiry, the stored filename and physical path reused from the existing
record. -/
def dupNewRec (cfg : EngineSettings) (st : SystemState) (inp : UploadInput)
    (ex : FileRecord) (d : List Char) : FileRecord :=
  { id := st.nextId
    filename := ex.filename
    original_filename := sanitize_filename (inp.filename.getD "unnamed".toList)
    share_code := inp.shareCode
    uploader_ip := inp.clientIp
    upload_time := inp.now
    expiry_time := inp.now + retentionMs cfg
    file_path := ex.file_path
    file_size := inp.content.length
    file_md5 := d }

/-- Stored filename derived for a first ingestion: the millisecond
timestamp, the share code and the sanitized name, underscore-joined. -/
def freshStoredName (inp : UploadInput) : List Char :=
  natToChars inp.now ++ '_' ::
    (inp.shareCode ++ '_' :: sanitize_filename (inp.filename.getD "unnamed".toList))

/-- Physical path derived for a first ingestion: the upload directory, the
date-nested fragment, and the stored filename. -/
def freshPath (cfg : EngineSettings) (inp : UploadInput) : List Char :=
  cfg.upload_dir ++ '/' :: (datePath inp.now ++ '/' :: freshStoredName inp)

/-- Row inserted by upload_file on a first ingestion of a digest. -/
def freshNewRec (cfg : EngineSettings) (st : SystemState) (inp : UploadInput)
    (d : List Char) : FileRecord :=
  { id := st.nextId
    filename := freshStoredName inp
    original_filename := sanitize_filename (inp.filename.getD "unnamed".toList)
    share_code := inp.shareCode
    uploader_ip := inp.clientIp
    upload_time := inp.now
    expiry_time := inp.now + retentionMs cfg
    file_path := freshPath cfg inp
    file_size := inp.content.length
    file_md5 := d }

/-- Successful response dictionary returned by upload_file. -/
def uploadOkResponse (cfg : EngineSettings) (inp : UploadInput) : UploadResponse :=
  { share_code := inp.shareCode
    filename := sanitize_filename (inp.filename.getD "unnamed".toList)
    file_size := inp.content.length
    upload_time := inp.now
    expiry_time := inp.now + retentionMs cfg }

/-- Embeds upload_file from src/app/routers/upload.py.  The md5fn argument
is the content hasher (hashlib.md5 hexdigest in the source, an external
library; no property of it is assumed by any theorem).  In code order:
read the body; reject with 413 when the length exceeds the configured
maximum; compute the digest; look up the latest row with that digest;
sanitize the filename; take the fresh share code from the generation loop
(its postcondition, absence from the store, is a hypothesis of the
theorems); on a digest hit reuse the stored path and name and bulk-extend
the expiry of every row with the digest when the new expiry is later than
the latest existing one; otherwise write the bytes to a fresh date-nested
path; insert the new row and commit. -/
def upload_file (md5fn : List Nat → List Char) (cfg : EngineSettings)
    (st : SystemState) (inp : UploadInput) : UploadOutcome :=
  if cfg.max_file_size < inp.content.length then
    { state := st
      result := .error (413, sizeErrMsg cfg)
      trace := [Ev.readBytes, Ev.raiseHttp 413 (sizeErrMsg cfg)] }
  else
    let file_md5 := md5fn inp.content
    let expiry_time := inp.now + retentionMs cfg
    match findLatestByDigest st.records file_md5 with
    | some existing =>
        { state :=
            { records :=
                (if existing.expiry_time < expiry_time then
                  extendExpiryRows st.records file_md5 expiry_time
                 else st.records) ++ [dupNewRec cfg st inp existing file_md5]
              disk := st.disk
              nextId := st.nextId + 1 }
          result := .ok (uploadOkResponse cfg inp)
          trace := [Ev.readBytes, Ev.computeHash, Ev.queryByDigest] ++
            (if existing.expiry_time < expiry_time then
              [Ev.extendExpiry file_md5 expiry_time] else []) ++
            [Ev.dbInsert st.nextId, Ev.dbCommit] }
    | none =>
        { state :=
            { records := st.records ++ [freshNewRec cfg st inp file_md5]
              disk := st.disk ++ [(freshPath cfg inp, inp.content)]
              nextId := st.nextId + 1 }
          result := .ok (uploadOkResponse cfg inp)
          trace := [Ev.readBytes, Ev.computeHash, Ev.queryByDigest,
            Ev.diskWrite (freshPath cfg inp), Ev.dbInsert st.nextId, Ev.dbCommit] }

/-! ## The retention sweep, from src/app/utils/scheduler.py -/

/-- Embeds the live-sibling check of _cleanup_with_session: some other row
shares the digest of r, has expiry_time at or after now, and has a
different id. -/
def hasLiveSibling (rs : List FileRecord) (now : Nat) (r : FileRecord) : Bool :=
  rs.any (fun s =>
    decide (s.file_md5 = r.file_md5) && decide (now ≤ s.expiry_time) && decide (s.id ≠ r.id))

/-- Paths marked for physical deletion by one sweep run: the fold over the
expired rows that adds the file_path of each row without a live sibling,
deduplicated (the Python set), in first marking order. -/
def sweepMarked (rs : List FileRecord) (now : Nat) : List (List Char) :=
  (rs.filter (fun r => decide (r.expiry_time < now))).foldl
    (fun acc r =>
      if hasLiveSibling rs now r then acc
      else if decide (r.file_path ∈ acc) then acc else acc ++ [r.file_path])
    []

/-- Embeds _cleanup_with_session from src/app/utils/scheduler.py: select
the rows with expiry_time before now; for each, mark its path for physical
deletion unless a live sibling shares the digest (each path at most once);
delete every expired row; unlink each marked path present on disk; commit.
The returned trace lists the events in the program order of the source:
the row deletions are issued first, the unlinks follow, and the commit
comes last. -/
def cleanup_expired_files (st : SystemState) (now : Nat) : SystemState × List Ev :=
  let expired := st.records.filter (fun r => decide (r.expiry_time < now))
  let marked := sweepMarked st.records now
  let unlinked := marked.filter (fun p => decide (p ∈ diskPaths st))
  ({ records := st.records.filter (fun r => !decide (r.expiry_time < now))
     disk := st.disk.filter (fun e => !decide (e.1 ∈ marked))
     nextId := st.nextId },
   expired.map (fun r => Ev.deleteRow r.id) ++ unlinked.map Ev.unlink ++ [Ev.dbCommit])

/-! ## The retrieval engine, from src/app/routers/download.py -/

/-- Outcome of an info lookup or a download: an HTTP error, the metadata
dictionary, or the streamed file (content-disposition filename and
content-length, plus the path being streamed). -/
inductive RetrievalResult where
  | httpError (status : Nat) (detail : List Char)
  | fileInfo (filename : List Char) (file_size : Nat) (upload_time expiry_time : Nat)
      (share_code : List Char)
  | fileStream (path : List Char) (dispositionName : List Char) (contentLength : Nat)
  deriving DecidableEq

/-- Embeds get_file_info from src/app/routers/download.py: look up the row
by share code (absent gives 404); compare the expiry against the current
UTC time, interpreting an offset-naive stored value as UTC (on the single
UTC millisecond timeline this is the plain comparison); check the physical
file exists (missing gives 404); otherwise return the metadata. -/
def get_file_info (st : SystemState) (now : Nat) (code : List Char) : RetrievalResult :=
  match st.records.find? (fun r => decide (r.share_code = code)) with
  | none => .httpError 404 "File not found".toList
  | some r =>
      if r.expiry_time < now then .httpError 410 "File has expired".toList
      else if decide (r.file_path ∈ diskPaths st) then
        .fileInfo r.original_filename r.file_size r.upload_time r.expiry_time code
      else .httpError 404 "File not found on server".toList

/-- Embeds download_file from src/app/routers/download.py: the same three
checks as get_file_info in the same order, then the streaming response
carrying the sanitized original filename in the content-disposition and
file_size as the content-length. -/
def download_file (st : SystemState) (now : Nat) (code : List Char) : RetrievalResult :=
  match st.records.find? (fun r => decide (r.share_code = code)) with
  | none => .httpError 404 "File not found".toList
  | some r =>
      if r.expiry_time < now then .httpError 410 "File has expired".toList
      else if decide (r.file_path ∈ diskPaths st) then
        .fileStream r.file_path r.original_filename r.file_size
      else .httpError 404 "File not found on server".toList

/-! ## Derived predicates used in the statements -/

/-- Proposition form of the live-sibling check: some row of rs shares the
digest of r, is not yet expired at now, and has a different id. -/
def LiveSibling (rs : List FileRecord) (now : Nat) (r : FileRecord) : Prop :=
  ∃ s ∈ rs, s.file_md5 = r.file_md5 ∧ now ≤ s.expiry_time ∧ s.id ≠ r.id

instance (rs : List FileRecord) (now : Nat) (r : FileRecord) :
    Decidable (LiveSibling rs now r) := by
  unfold LiveSibling; infer_instance

/-- Deduplication invariant: any two rows sharing a content digest hold the
same physical path and the same stored filename. -/
def DigestConsistent (rs : List FileRecord) : Prop :=
  ∀ r1 ∈ rs, ∀ r2 ∈ rs, r1.file_md5 = r2.file_md5 →
    r1.file_path = r2.file_path ∧ r1.filename = r2.filename

instance (rs : List FileRecord) : Decidable (DigestConsistent rs) := by
  unfold DigestConsistent; infer_instance

/-- Reachable-state invariant used by the sweep statements: the physical
path of a row determines its digest (each first ingestion derives a fresh
path embedding its own timestamp and share code, and paths are never
rewritten). -/
def PathDeterminesDigest (rs : List FileRecord) : Prop :=
  ∀ r1 ∈ rs, ∀ r2 ∈ rs, r1.file_path = r2.file_path → r1.file_md5 = r2.file_md5

instance (rs : List FileRecord) : Decidable (PathDeterminesDigest rs) := by
  unfold PathDeterminesDigest; infer_instance

/-- Largest expiry among the rows holding a digest: the instant until which
the physical blob of that digest is retained by the sweep. -/
def digestRetention (rs : List FileRecord) (d : List Char) : Nat :=
  (rs.filter (fun r => decide (r.file_md5 = d))).foldl (fun a r => max a r.expiry_time) 0

/-! ## Concrete fixtures for the witness statements -/

/-- Settings fixture: tiny limit, seven-day retention. -/
def wCfg : EngineSettings :=
  { upload_dir := "u".toList, max_file_size := 100, file_expiry_days := 7 }

/-- Constant hasher fixture (no theorem assumes anything of the hasher). -/
def wMd5 : List Nat → List Char := fun _ => "d".toList

/-- Row fixture: a live share on path p. -/
def wRecLive : FileRecord :=
  { id := 1, filename := "f".toList, original_filename := "f".toList
    share_code := "c1".toList, uploader_ip := "i".toList
    upload_time := 0, expiry_time := 10, file_path := "p".toList
    file_size := 1, file_md5 := "d".toList }

/-- Row fixture: an expired share on path q with its own digest. -/
def wRecExp : FileRecord :=
  { id := 2, filename := "g".toList, original_filename := "g".toList
    share_code := "c2".toList, uploader_ip := "i".toList
    upload_time := 0, expiry_time := 3, file_path := "q".toList
    file_size := 1, file_md5 := "e".toList }

/-- State fixture: one live and one expired share, both blobs on disk. -/
def wSt : SystemState :=
  { records := [wRecLive, wRecExp]
    disk := [("p".toList, [0]), ("q".toList, [1])]
    nextId := 3 }

/-- Upload-input fixture: small body, time 4. -/
def wInp : UploadInput :=
  { content := [1, 2], filename := some "a.txt".toList, clientIp := "i".toList
    now := 4, shareCode := "z1".toList }

/-- Second upload-input fixture with the same bytes, time 6. -/
def wInp2 : UploadInput :=
  { content := [1, 2], filename := some "b".toList, clientIp := "i".toList
    now := 6, shareCode := "z2".toList }

/-- Empty state fixture. -/
def wSt0 : SystemState := { records := [], disk := [], nextId := 1 }

/-! ## Event-trace predicates -/

/-- Test for an unlink event. -/
def isUnlinkEv : Ev → Bool
  | .unlink _ => true
  | _ => false

/-- Test for a row-deletion event. -/
def isDeleteRowEv : Ev → Bool
  | .deleteRow _ => true
  | _ => false

/-- Test for a physical disk-write event. -/
def isDiskWriteEv : Ev → Bool
  | .diskWrite _ => true
  | _ => false

/-- Number of physical blob writes in a trace. -/
def countWrites (tr : List Ev) : Nat :=
  (tr.filter isDiskWriteEv).length

/-- Ordering property asserted by the specification for the sweep: every
physical unlink event is preceded by a transaction commit event. -/
def CommitBeforeUnlinks (tr : List Ev) : Prop :=
  ∀ i : Fin tr.length, isUnlinkEv (tr.get i) = true →
    ∃ j : Fin tr.length, j.val < i.val ∧ tr.get j = Ev.dbCommit

instance (tr : List Ev) : Decidable (CommitBeforeUnlinks tr) := by
  unfold CommitBeforeUnlinks; infer_instance

/-! ## Basic lemmas -/

theorem hasLiveSibling_iff (rs : List FileRecord) (now : Nat) (r : FileRecord) :
    hasLiveSibling rs now r = true ↔ LiveSibling rs now r := by
  unfold hasLiveSibling LiveSibling
  rw [List.any_eq_true]
  constructor
  · rintro ⟨s, hs, hb⟩
    simp only [Bool.and_eq_true, decide_eq_true_eq] at hb
    exact ⟨s, hs, hb.1.1, hb.1.2, hb.2⟩
  · rintro ⟨s, hs, h1, h2, h3⟩
    exact ⟨s, hs, by simp [h1, h2, h3]⟩

theorem betterRec_cases (b r : FileRecord) : betterRec b r = b ∨ betterRec b r = r := by
  unfold betterRec; split <;> simp

theorem expiry_le_betterRec_left (b r : FileRecord) :
    b.expiry_time ≤ (betterRec b r).expiry_time := by
  unfold betterRec; split <;> omega

theorem expiry_le_betterRec_right (b r : FileRecord) :
    r.expiry_time ≤ (betterRec b r).expiry_time := by
  unfold betterRec; split <;> omega

theorem foldl_betterRec_mem (l : List FileRecord) (b : FileRecord) :
    l.foldl betterRec b = b ∨ l.foldl betterRec b ∈ l := by
  induction l generalizing b with
  | nil => simp
  | cons r t ih =>
      rcases ih (betterRec b r) with h | h
      · rcases betterRec_cases b r with hb | hb
        · simp only [List.foldl_cons]
          rw [h, hb]; left; rfl
        · simp only [List.foldl_cons]
          rw [h, hb]; right; exact List.mem_cons_self _ _
      · right; exact List.mem_cons_of_mem _ h

theorem foldl_betterRec_ge_init (l : List FileRecord) (b : FileRecord) :
    b.expiry_time ≤ (l.foldl betterRec b).expiry_time := by
  induction l generalizing b with
  | nil => simp
  | cons r t ih =>
      simp only [List.foldl_cons]
      exact le_trans (expiry_le_betterRec_left b r) (ih (betterRec b r))

theorem foldl_betterRec_ge_mem (l : List FileRecord) (b : FileRecord) :
    ∀ x ∈ l, x.expiry_time ≤ (l.foldl betterRec b).expiry_time := by
  induction l generalizing b with
  | nil => simp
  | cons r t ih =>
      intro x hx
      rcases List.mem_cons.mp hx with h | h
      · subst h
        simp only [List.foldl_cons]
        exact le_trans (expiry_le_betterRec_right b x) (foldl_betterRec_ge_init t _)
      · exact ih (betterRec b r) x h

theorem findLatestByDigest_eq_none (rs : List FileRecord) (d : List Char) :
    findLatestByDigest rs d = none ↔ ∀ r ∈ rs, r.file_md5 ≠ d := by
  unfold findLatestByDigest
  constructor
  · intro h r hr hmd
    cases hf : rs.filter (fun r => decide (r.file_md5 = d)) with
    | nil =>
        have : r ∈ rs.filter (fun r => decide (r.file_md5 = d)) :=
          List.mem_filter.mpr ⟨hr, by simp [hmd]⟩
        rw [hf] at this; cases this
    | cons a t => rw [hf] at h; cases h
  · intro h
    have hf : rs.filter (fun r => decide (r.file_md5 = d)) = [] := by
      rw [List.filter_eq_nil_iff]
      intro r hr
      simp [h r hr]
    rw [hf]; rfl

theorem findLatestByDigest_eq_some (rs : List FileRecord) (d : List Char)
    (ex : FileRecord) (h : findLatestByDigest rs d = some ex) :
    ex ∈ rs ∧ ex.file_md5 = d ∧
      ∀ r ∈ rs, r.file_md5 = d → r.expiry_time ≤ ex.expiry_time := by
  unfold findLatestByDigest at h
  cases hf : rs.filter (fun r => decide (r.file_md5 = d)) with
  | nil => rw [hf] at h; cases h
  | cons a t =>
      rw [hf] at h
      unfold pickLatest at h
      have hex : ex = t.foldl betterRec a := by
        injection h with h; exact h.symm
      have hmem : ex ∈ a :: t := by
        rw [hex]
        rcases foldl_betterRec_mem t a with h1 | h1
        · rw [h1]; exact List.mem_cons_self _ _
        · exact List.mem_cons_of_mem _ h1
      have hmemf : ex ∈ rs.filter (fun r => decide (r.file_md5 = d)) := by
        rw [hf]; exact hmem
      have hexrs := List.mem_filter.mp hmemf
      refine ⟨hexrs.1, by simpa using hexrs.2, ?_⟩
      intro r hr hrd
      have hrf : r ∈ a :: t := by
        rw [← hf]; exact List.mem_filter.mpr ⟨hr, by simp [hrd]⟩
      rcases List.mem_cons.mp hrf with h1 | h1
      · subst h1; rw [hex]; exact foldl_betterRec_ge_init t r
      · rw [hex]; exact foldl_betterRec_ge_mem t a r h1

theorem sweepMarked_mem (rs : List FileRecord) (now : Nat) (p : List Char) :
    p ∈ sweepMarked rs now ↔
      ∃ r ∈ rs, r.expiry_time < now ∧ ¬ LiveSibling rs now r ∧ r.file_path = p := by
  unfold sweepMarked
  have key : ∀ (l : List FileRecord) (acc : List (List Char)),
      p ∈ l.foldl (fun acc r =>
        if hasLiveSibling rs now r then acc
        else if decide (r.file_path ∈ acc) then acc else acc ++ [r.file_path]) acc ↔
      p ∈ acc ∨ ∃ r ∈ l, ¬ hasLiveSibling rs now r = true ∧ r.file_path = p := by
    intro l
    induction l with
    | nil => intro acc; simp
    | cons a t ih =>
        intro acc
        simp only [List.foldl_cons]
        by_cases hls : hasLiveSibling rs now a
        · rw [if_pos hls, ih]
          constructor
          · rintro (h | h)
            · exact Or.inl h
            · exact Or.inr (by rcases h with ⟨r, hr, h1, h2⟩; exact ⟨r, List.mem_cons_of_mem _ hr, h1, h2⟩)
          · rintro (h | ⟨r, hr, h1, h2⟩)
            · exact Or.inl h
            · rcases List.mem_cons.mp hr with he | he
              · subst he; exact absurd hls h1
              · exact Or.inr ⟨r, he, h1, h2⟩
        · rw [if_neg hls]
          by_cases hin : a.file_path ∈ acc
          · rw [if_pos (by simpa using hin), ih]
            constructor
            · rintro (h | ⟨r, hr, h1, h2⟩)
              · exact Or.inl h
              · exact Or.inr ⟨r, List.mem_cons_of_mem _ hr, h1, h2⟩
            · rintro (h | ⟨r, hr, h1, h2⟩)
              · exact Or.inl h
              · rcases List.mem_cons.mp hr with he | he
                · subst he; rw [← h2]; exact Or.inl hin
                · exact Or.inr ⟨r, he, h1, h2⟩
          · rw [if_neg (by simpa using hin), ih]
            constructor
            · rintro (h | ⟨r, hr, h1, h2⟩)
              · rcases List.mem_append.mp h with h | h
                · exact Or.inl h
                · have hp : p = a.file_path := by simpa using h
                  exact Or.inr ⟨a, List.mem_cons_self _ _, hls, hp.symm⟩
              · exact Or.inr ⟨r, List.mem_cons_of_mem _ hr, h1, h2⟩
            · rintro (h | ⟨r, hr, h1, h2⟩)
              · exact Or.inl (List.mem_append.mpr (Or.inl h))
              · rcases List.mem_cons.mp hr with he | he
                · subst he; rw [← h2]
                  exact Or.inl (List.mem_append.mpr (Or.inr (by simp)))
                · exact Or.inr ⟨r, he, h1, h2⟩
  rw [key]
  simp only [List.mem_nil_iff, false_or, List.mem_filter, decide_eq_true_eq]
  constructor
  · rintro ⟨r, ⟨hr, hex⟩, h1, h2⟩
    exact ⟨r, hr, hex, fun hc => h1 ((hasLiveSibling_iff rs now r).mpr hc), h2⟩
  · rintro ⟨r, hr, hex, h1, h2⟩
    exact ⟨r, ⟨hr, hex⟩, fun hc => h1 ((hasLiveSibling_iff rs now r).mp hc), h2⟩

theorem sweepMarked_nodup (rs : List FileRecord) (now : Nat) :
    (sweepMarked rs now).Nodup := by
  unfold sweepMarked
  have key : ∀ (l : List FileRecord) (acc : List (List Char)), acc.Nodup →
      (l.foldl (fun acc r =>
        if hasLiveSibling rs now r then acc
        else if decide (r.file_path ∈ acc) then acc else acc ++ [r.file_path]) acc).Nodup := by
    intro l
    induction l with
    | nil => intro acc h; simpa using h
    | cons a t ih =>
        intro acc h
        simp only [List.foldl_cons]
        apply ih
        by_cases hls : hasLiveSibling rs now a
        · rw [if_pos hls]; exact h
        · rw [if_neg hls]
          by_cases hin : a.file_path ∈ acc
          · rw [if_pos (by simpa using hin)]; exact h
          · rw [if_neg (by simpa using hin)]
            rw [← List.concat_eq_append]
            exact List.Nodup.concat hin h
  exact key _ [] List.nodup_nil

theorem cleanup_diskPaths_mem (st : SystemState) (now : Nat) (p : List Char) :
    p ∈ diskPaths (cleanup_expired_files st now).1 ↔
      p ∈ diskPaths st ∧ p ∉ sweepMarked st.records now := by
  unfold cleanup_expired_files diskPaths
  simp only [List.mem_map, List.mem_filter, Bool.not_eq_true', decide_eq_false_iff_not]
  constructor
  · rintro ⟨e, ⟨he, hnm⟩, hfst⟩
    exact ⟨⟨e, he, hfst⟩, by rw [← hfst]; exact hnm⟩
  · rintro ⟨⟨e, he, hfst⟩, hnm⟩
    exact ⟨e, ⟨he, by rw [hfst]; exact hnm⟩, hfst⟩

/-- A sweep run at a time at which no stored row is expired is a complete
no-op: the state is returned unchanged and the trace holds only the commit. -/
theorem cleanup_noop_of_no_expired (st : SystemState) (now : Nat)
    (h : ∀ r ∈ st.records, ¬ r.expiry_time < now) :
    cleanup_expired_files st now = (st, [Ev.dbCommit]) := by
  unfold cleanup_expired_files
  have hexp : st.records.filter (fun r => decide (r.expiry_time < now)) = [] := by
    rw [List.filter_eq_nil_iff]
    intro r hr; simp [h r hr]
  have hmark : sweepMarked st.records now = [] := by
    unfold sweepMarked
    rw [hexp]; rfl
  have hkeep : st.records.filter (fun r => !decide (r.expiry_time < now)) = st.records := by
    rw [List.filter_eq_self]
    intro r hr; simp [h r hr]
  simp [hexp, hmark, hkeep]

/-! ## Claims C4, C5, C6, C7 -/

/-- C4: for every share code, both the file-info lookup and the download
operation classify the request into exactly one of three errors or success:
no record with that code yields 404 not-found; a record whose expiry time
(interpreted as UTC) is before the current UTC time yields 410 expired,
distinct from not-found; a live record whose file path is absent from disk
yields 404 not-found; otherwise the operation succeeds with the metadata
respectively the stream. -/
theorem claim_C4_retrieval_classification (st : SystemState) (now : Nat) (code : List Char) :
    (st.records.find? (fun r => decide (r.share_code = code)) = none →
      get_file_info st now code = .httpError 404 "File not found".toList ∧
      download_file st now code = .httpError 404 "File not found".toList) ∧
    (∀ r, st.records.find? (fun r => decide (r.share_code = code)) = some r →
      (r.expiry_time < now →
        get_file_info st now code = .httpError 410 "File has expired".toList ∧
        download_file st now code = .httpError 410 "File has expired".toList) ∧
      (¬ r.expiry_time < now → r.file_path ∉ diskPaths st →
        get_file_info st now code = .httpError 404 "File not found on server".toList ∧
        download_file st now code = .httpError 404 "File not found on server".toList) ∧
      (¬ r.expiry_time < now → r.file_path ∈ diskPaths st →
        get_file_info st now code =
          .fileInfo r.original_filename r.file_size r.upload_time r.expiry_time code ∧
        download_file st now code = .fileStream r.file_path r.original_filename r.file_size)) := by
  refine ⟨?_, ?_⟩
  · intro h
    constructor <;> simp [get_file_info, download_file, h]
  · intro r h
    refine ⟨?_, ?_, ?_⟩
    · intro hexp
      constructor <;> simp [get_file_info, download_file, h, hexp]
    · intro hlive hdisk
      constructor <;> simp [get_file_info, download_file, h, hlive, hdisk]
    · intro hlive hdisk
      constructor <;> simp [get_file_info, download_file, h, hlive, hdisk]

/-- Witness for C4 at a concrete state: the live record with its blob on
disk succeeds in both operations, applying the classification theorem at
the fixture state. -/
theorem claim_C4_witness :
    get_file_info wSt 5 "c1".toList =
      .fileInfo wRecLive.original_filename wRecLive.file_size wRecLive.upload_time
        wRecLive.expiry_time "c1".toList ∧
    download_file wSt 5 "c1".toList =
      .fileStream wRecLive.file_path wRecLive.original_filename wRecLive.file_size :=
  ((claim_C4_retrieval_classification wSt 5 "c1".toList).2 wRecLive (by decide)).2.2
    (by decide) (by decide)

/-- C5: every upload whose byte length exceeds the configured maximum fails
with a 413 error whose message states the configured limit, before the
content digest is computed, atomically: no row is inserted, no bytes are
written, the state is unchanged. -/
theorem claim_C5_oversized_rejection (md5fn : List Nat → List Char)
    (cfg : EngineSettings) (st : SystemState) (inp : UploadInput)
    (h : cfg.max_file_size < inp.content.length) :
    upload_file md5fn cfg st inp =
      { state := st, result := .error (413, sizeErrMsg cfg)
        trace := [Ev.readBytes, Ev.raiseHttp 413 (sizeErrMsg cfg)] } ∧
    (∃ pre, sizeErrMsg cfg = pre ++ (natToChars cfg.max_file_size ++ " bytes)".toList)) ∧
    Ev.computeHash ∉ (upload_file md5fn cfg st inp).trace ∧
    (∀ p, Ev.diskWrite p ∉ (upload_file md5fn cfg st inp).trace) ∧
    (∀ i, Ev.dbInsert i ∉ (upload_file md5fn cfg st inp).trace) ∧
    (upload_file md5fn cfg st inp).state = st := by
  have hu : upload_file md5fn cfg st inp =
      { state := st, result := .error (413, sizeErrMsg cfg)
        trace := [Ev.readBytes, Ev.raiseHttp 413 (sizeErrMsg cfg)] } := by
    unfold upload_file
    rw [if_pos h]
  refine ⟨hu, ?_, ?_, ?_, ?_, ?_⟩
  · refine ⟨"File size exceeds maximum allowed size of ".toList ++
      (natToChars (mbRound cfg.max_file_size) ++ "MB (".toList), ?_⟩
    unfold sizeErrMsg
    simp [List.append_assoc]
  · rw [hu]; simp
  · intro p; rw [hu]; simp
  · intro i; rw [hu]; simp
  · rw [hu]

/-- Witness for C5 at a concrete oversized upload: a 101-byte body against
the 100-byte fixture limit is rejected with the documented outcome. -/
theorem claim_C5_witness :
    upload_file wMd5 wCfg wSt
      { content := List.replicate 101 0, filename := none
        clientIp := "i".toList, now := 4, shareCode := "zz".toList } =
      { state := wSt, result := .error (413, sizeErrMsg wCfg)
        trace := [Ev.readBytes, Ev.raiseHttp 413 (sizeErrMsg wCfg)] } :=
  (claim_C5_oversized_rejection wMd5 wCfg wSt _ (by decide)).1

/-- C6 counterexample: at a concrete state with one expired row whose blob
is on disk, the sweep trace unlinks the physical file before the commit
event, refuting the claim that the row-deletion commit precedes every
unlink. -/
theorem claim_C6_counterexample :
    ¬ CommitBeforeUnlinks (cleanup_expired_files wSt 5).2 := by decide

/-- C6 amended: in every sweep run the trace is the row deletions, then the
physical unlinks, then the single final commit: physical files are deleted
from disk after the expired row deletions are issued but before the commit
of the same run (the code commits last, not before the unlinks). -/
theorem claim_C6_unlink_before_commit (st : SystemState) (now : Nat) :
    ∃ ds us, (cleanup_expired_files st now).2 = ds ++ us ++ [Ev.dbCommit] ∧
      (∀ e ∈ ds, isDeleteRowEv e = true) ∧ (∀ e ∈ us, isUnlinkEv e = true) := by
  refine ⟨_, _, rfl, ?_, ?_⟩
  · intro e he
    rcases List.mem_map.mp he with ⟨r, _, hre⟩
    rw [← hre]; rfl
  · intro e he
    rcases List.mem_map.mp he with ⟨p, _, hpe⟩
    rw [← hpe]; rfl

/-- C7: the sweep is idempotent: after a run at time now, a second run at a
time now2 at which no remaining row has expired (no new expirations in
between) deletes zero rows and zero files and returns the state unchanged,
its trace holding only the commit. -/
theorem claim_C7_sweep_idempotent (st : SystemState) (now now2 : Nat)
    (h : ∀ r ∈ (cleanup_expired_files st now).1.records, ¬ r.expiry_time < now2) :
    cleanup_expired_files (cleanup_expired_files st now).1 now2 =
      ((cleanup_expired_files st now).1, [Ev.dbCommit]) :=
  cleanup_noop_of_no_expired _ now2 h

/-- Witness for C7: running the sweep twice at the fixture state and the
same instant, the second run is the no-op commit. -/
theorem claim_C7_witness :
    cleanup_expired_files (cleanup_expired_files wSt 5).1 5 =
      ((cleanup_expired_files wSt 5).1, [Ev.dbCommit]) :=
  claim_C7_sweep_idempotent wSt 5 5 (by decide)

/-! ## Claim C2 -/

/-- C2: in every sweep run at time now, over states satisfying the
reachable-state invariants (distinct row ids; the path of a row determines
its digest): every row with expiry before now leaves the database and every
other row stays; the physical file at an expired row's path is deleted from
disk exactly when no other row with the same digest and a different id is
still live; and the unlink events of the run are pairwise distinct, so each
physical path is deleted at most once. -/
theorem claim_C2_sweep_correctness (st : SystemState) (now : Nat)
    (hids : (st.records.map (fun r => r.id)).Nodup)
    (hpd : PathDeterminesDigest st.records) :
    (∀ r ∈ st.records, r.expiry_time < now →
        r ∉ (cleanup_expired_files st now).1.records) ∧
    (∀ r ∈ st.records, ¬ r.expiry_time < now →
        r ∈ (cleanup_expired_files st now).1.records) ∧
    (∀ r ∈ st.records, r.expiry_time < now → r.file_path ∈ diskPaths st →
        (r.file_path ∉ diskPaths (cleanup_expired_files st now).1 ↔
          ¬ LiveSibling st.records now r)) ∧
    ((cleanup_expired_files st now).2.filter isUnlinkEv).Nodup := by
  have hrec : (cleanup_expired_files st now).1.records =
      st.records.filter (fun r => !decide (r.expiry_time < now)) := rfl
  refine ⟨?_, ?_, ?_, ?_⟩
  · intro r hr hexp hmem
    rw [hrec] at hmem
    have := (List.mem_filter.mp hmem).2
    simp [hexp] at this
  · intro r hr hlive
    rw [hrec]
    exact List.mem_filter.mpr ⟨hr, by simp [hlive]⟩
  · intro r hr hexp hdisk
    rw [cleanup_diskPaths_mem]
    constructor
    · intro hnot
      by_cases hmk : r.file_path ∈ sweepMarked st.records now
      · rcases (sweepMarked_mem st.records now r.file_path).mp hmk with
          ⟨r', hr', hexp', hnosib', hpath'⟩
        intro hsib
        rcases hsib with ⟨s, hs, hmd, hexps, hid⟩
        apply hnosib'
        have hmd' : r'.file_md5 = r.file_md5 := hpd r' hr' r hr hpath'
        refine ⟨s, hs, by rw [hmd, ← hmd'], hexps, ?_⟩
        intro hidsr'
        have hinj := List.inj_on_of_nodup_map hids
        have : s = r' := hinj hs hr' hidsr'
        rw [this] at hexps
        omega
      · exact absurd ⟨hdisk, hmk⟩ hnot
    · intro hnosib
      intro hmem
      exact hmem.2 ((sweepMarked_mem st.records now r.file_path).mpr
        ⟨r, hr, hexp, hnosib, rfl⟩)
  · have htr : (cleanup_expired_files st now).2 =
        (st.records.filter (fun r => decide (r.expiry_time < now))).map
            (fun r => Ev.deleteRow r.id) ++
          ((sweepMarked st.records now).filter (fun p => decide (p ∈ diskPaths st))).map
            Ev.unlink ++ [Ev.dbCommit] := rfl
    rw [htr]
    have h1 : ((st.records.filter (fun r => decide (r.expiry_time < now))).map
        (fun r => Ev.deleteRow r.id)).filter isUnlinkEv = [] := by
      rw [List.filter_eq_nil_iff]
      intro e he
      rcases List.mem_map.mp he with ⟨x, _, hxe⟩
      rw [← hxe]; simp [isUnlinkEv]
    have h2 : (((sweepMarked st.records now).filter
        (fun p => decide (p ∈ diskPaths st))).map Ev.unlink).filter isUnlinkEv =
        ((sweepMarked st.records now).filter (fun p => decide (p ∈ diskPaths st))).map
          Ev.unlink := by
      rw [List.filter_eq_self]
      intro e he
      rcases List.mem_map.mp he with ⟨x, _, hxe⟩
      rw [← hxe]; rfl
    have h3 : ([Ev.dbCommit]).filter isUnlinkEv = [] := rfl
    rw [List.filter_append, List.filter_append, h1, h2, h3]
    rw [List.nil_append, List.append_nil]
    refine List.Nodup.map ?_ (List.Nodup.filter _ (sweepMarked_nodup st.records now))
    intro a b hab
    injection hab

/-- Witness for C2: at the fixture state the expired row has no live
sibling, so after the sweep its physical path is gone from disk, by the
sweep-correctness theorem applied at the fixture. -/
theorem claim_C2_witness :
    wRecExp.file_path ∉ diskPaths (cleanup_expired_files wSt 5).1 :=
  ((claim_C2_sweep_correctness wSt 5 (by decide) (by decide)).2.2.1 wRecExp
    (by decide) (by decide) (by decide)).mpr (by decide)

/-! ## Branch equations for upload_file -/

theorem upload_eq_oversize (md5fn : List Nat → List Char) (cfg : EngineSettings)
    (st : SystemState) (inp : UploadInput)
    (hsz : cfg.max_file_size < inp.content.length) :
    upload_file md5fn cfg st inp =
      { state := st, result := .error (413, sizeErrMsg cfg)
        trace := [Ev.readBytes, Ev.raiseHttp 413 (sizeErrMsg cfg)] } := by
  unfold upload_file
  rw [if_pos hsz]

theorem upload_eq_fresh (md5fn : List Nat → List Char) (cfg : EngineSettings)
    (st : SystemState) (inp : UploadInput)
    (hsz : ¬ cfg.max_file_size < inp.content.length)
    (hf : findLatestByDigest st.records (md5fn inp.content) = none) :
    upload_file md5fn cfg st inp =
      { state :=
          { records := st.records ++ [freshNewRec cfg st inp (md5fn inp.content)]
            disk := st.disk ++ [(freshPath cfg inp, inp.content)]
            nextId := st.nextId + 1 }
        result := .ok (uploadOkResponse cfg inp)
        trace := [Ev.readBytes, Ev.computeHash, Ev.queryByDigest,
          Ev.diskWrite (freshPath cfg inp), Ev.dbInsert st.nextId, Ev.dbCommit] } := by
  unfold upload_file
  rw [if_neg hsz]
  simp only [hf]

theorem upload_eq_dup (md5fn : List Nat → List Char) (cfg : EngineSettings)
    (st : SystemState) (inp : UploadInput) (ex : FileRecord)
    (hsz : ¬ cfg.max_file_size < inp.content.length)
    (hf : findLatestByDigest st.records (md5fn inp.content) = some ex) :
    upload_file md5fn cfg st inp =
      { state :=
          { records :=
              (if ex.expiry_time < inp.now + retentionMs cfg then
                extendExpiryRows st.records (md5fn inp.content) (inp.now + retentionMs cfg)
               else st.records) ++ [dupNewRec cfg st inp ex (md5fn inp.content)]
            disk := st.disk
            nextId := st.nextId + 1 }
        result := .ok (uploadOkResponse cfg inp)
        trace := [Ev.readBytes, Ev.computeHash, Ev.queryByDigest] ++
          (if ex.expiry_time < inp.now + retentionMs cfg then
            [Ev.extendExpiry (md5fn inp.content) (inp.now + retentionMs cfg)] else []) ++
          [Ev.dbInsert st.nextId, Ev.dbCommit] } := by
  unfold upload_file
  rw [if_neg hsz]
  simp only [hf]

theorem getLast?_append_singleton {α : Type} (l : List α) (a : α) :
    (l ++ [a]).getLast? = some a := by
  simp

/-! ## Claim C3 -/

/-- C3: every created FileShare row has expiry time equal to its upload
time plus the configured retention window, and the expiry of every stored
row is monotonically non-decreasing across the only mutation path, the
bulk extension issued during ingestion of a duplicate digest (the sweep
only removes rows, never rewriting any). -/
theorem claim_C3_expiry_monotone (md5fn : List Nat → List Char) (cfg : EngineSettings)
    (st : SystemState) (inp : UploadInput) (now : Nat) :
    (∀ r ∈ st.records, ∃ r' ∈ (upload_file md5fn cfg st inp).state.records,
        r'.id = r.id ∧ r.expiry_time ≤ r'.expiry_time) ∧
    (inp.content.length ≤ cfg.max_file_size →
      ∃ nr, (upload_file md5fn cfg st inp).state.records.getLast? = some nr ∧
        nr.share_code = inp.shareCode ∧ nr.upload_time = inp.now ∧
        nr.expiry_time = inp.now + retentionMs cfg) ∧
    (∀ r ∈ (cleanup_expired_files st now).1.records, r ∈ st.records) := by
  refine ⟨?_, ?_, ?_⟩
  · intro r hr
    by_cases hsz : cfg.max_file_size < inp.content.length
    · rw [upload_eq_oversize md5fn cfg st inp hsz]
      exact ⟨r, hr, rfl, le_refl _⟩
    · cases hf : findLatestByDigest st.records (md5fn inp.content) with
      | none =>
          rw [upload_eq_fresh md5fn cfg st inp hsz hf]
          exact ⟨r, List.mem_append_left _ hr, rfl, le_refl _⟩
      | some ex =>
          rw [upload_eq_dup md5fn cfg st inp ex hsz hf]
          by_cases hext : ex.expiry_time < inp.now + retentionMs cfg
          · rw [if_pos hext]
            refine ⟨if r.file_md5 = md5fn inp.content then
                { r with expiry_time := inp.now + retentionMs cfg } else r, ?_, ?_, ?_⟩
            · apply List.mem_append_left
              unfold extendExpiryRows
              exact List.mem_map_of_mem _ hr
            · split <;> rfl
            · split
              · rename_i hmd
                have hle := (findLatestByDigest_eq_some st.records (md5fn inp.content)
                  ex hf).2.2 r hr hmd
                simp only
                omega
              · exact le_refl _
          · rw [if_neg hext]
            exact ⟨r, List.mem_append_left _ hr, rfl, le_refl _⟩
  · intro hsz
    have hsz' : ¬ cfg.max_file_size < inp.content.length := by omega
    cases hf : findLatestByDigest st.records (md5fn inp.content) with
    | none =>
        rw [upload_eq_fresh md5fn cfg st inp hsz' hf]
        exact ⟨freshNewRec cfg st inp (md5fn inp.content),
          getLast?_append_singleton _ _, rfl, rfl, rfl⟩
    | some ex =>
        rw [upload_eq_dup md5fn cfg st inp ex hsz' hf]
        exact ⟨dupNewRec cfg st inp ex (md5fn inp.content),
          getLast?_append_singleton _ _, rfl, rfl, rfl⟩
  · intro r hr
    have hrec : (cleanup_expired_files st now).1.records =
        st.records.filter (fun r => !decide (r.expiry_time < now)) := rfl
    rw [hrec] at hr
    exact (List.mem_filter.mp hr).1

/-- Witness for C3: the fixture upload is within the limit and its created
row carries expiry equal to upload time plus the retention window, by the
monotonicity theorem applied at the fixture. -/
theorem claim_C3_witness :
    ∃ nr, (upload_file wMd5 wCfg wSt wInp).state.records.getLast? = some nr ∧
      nr.share_code = wInp.shareCode ∧ nr.upload_time = wInp.now ∧
      nr.expiry_time = wInp.now + retentionMs wCfg :=
  (claim_C3_expiry_monotone wMd5 wCfg wSt wInp 0).2.1 (by decide)

/-! ## Claim C10 -/

theorem extendExpiryRows_fields (l : List FileRecord) (d : List Char) (e : Nat) :
    ∀ x ∈ extendExpiryRows l d e, ∃ r ∈ l, x.file_md5 = r.file_md5 ∧
      x.file_path = r.file_path ∧ x.filename = r.filename ∧ x.id = r.id := by
  intro x hx
  unfold extendExpiryRows at hx
  rcases List.mem_map.mp hx with ⟨r, hr, hrx⟩
  refine ⟨r, hr, ?_⟩
  rw [← hrx]
  split <;> exact ⟨rfl, rfl, rfl, rfl⟩

theorem mem_upload_dup_first_part (l : List FileRecord) (d : List Char) (e : Nat)
    (c : Prop) [Decidable c] :
    ∀ x ∈ (if c then extendExpiryRows l d e else l), ∃ r ∈ l, x.file_md5 = r.file_md5 ∧
      x.file_path = r.file_path ∧ x.filename = r.filename ∧ x.id = r.id := by
  intro x hx
  split at hx
  · exact extendExpiryRows_fields l d e x hx
  · exact ⟨x, hx, rfl, rfl, rfl, rfl⟩

/-- C10: every operation preserves the invariant that rows sharing a
content digest share their physical path and stored filename; ingestion
reuses the existing path and stored name whenever a row with the digest
exists and derives a fresh path (writing the blob there) only when none
exists; and no operation rewrites the path or stored name of an existing
row. -/
theorem claim_C10_digest_path_invariant (md5fn : List Nat → List Char)
    (cfg : EngineSettings) (st : SystemState) (inp : UploadInput) (now : Nat) :
    (DigestConsistent st.records →
      DigestConsistent (upload_file md5fn cfg st inp).state.records) ∧
    (DigestConsistent st.records →
      DigestConsistent (cleanup_expired_files st now).1.records) ∧
    (∀ r ∈ st.records, ∃ r' ∈ (upload_file md5fn cfg st inp).state.records,
        r'.id = r.id ∧ r'.file_path = r.file_path ∧ r'.filename = r.filename) ∧
    (inp.content.length ≤ cfg.max_file_size →
      ∀ ex, findLatestByDigest st.records (md5fn inp.content) = some ex →
        ∃ nr, (upload_file md5fn cfg st inp).state.records.getLast? = some nr ∧
          nr.file_path = ex.file_path ∧ nr.filename = ex.filename ∧
          (∀ p, Ev.diskWrite p ∉ (upload_file md5fn cfg st inp).trace)) ∧
    (inp.content.length ≤ cfg.max_file_size →
      findLatestByDigest st.records (md5fn inp.content) = none →
        ∃ nr, (upload_file md5fn cfg st inp).state.records.getLast? = some nr ∧
          nr.file_path = freshPath cfg inp ∧
          Ev.diskWrite (freshPath cfg inp) ∈ (upload_file md5fn cfg st inp).trace) := by
  refine ⟨?_, ?_, ?_, ?_, ?_⟩
  · intro hinv
    by_cases hsz : cfg.max_file_size < inp.content.length
    · rw [upload_eq_oversize md5fn cfg st inp hsz]; exact hinv
    · cases hf : findLatestByDigest st.records (md5fn inp.content) with
      | none =>
          rw [upload_eq_fresh md5fn cfg st inp hsz hf]
          have hno : ∀ r ∈ st.records, r.file_md5 ≠ md5fn inp.content :=
            (findLatestByDigest_eq_none st.records (md5fn inp.content)).mp hf
          intro r1 h1 r2 h2 hmd
          rcases List.mem_append.mp h1 with h1 | h1 <;>
            rcases List.mem_append.mp h2 with h2 | h2
          · exact hinv r1 h1 r2 h2 hmd
          · have h2' : r2 = freshNewRec cfg st inp (md5fn inp.content) := by simpa using h2
            rw [h2'] at hmd
            exact absurd hmd (hno r1 h1)
          · have h1' : r1 = freshNewRec cfg st inp (md5fn inp.content) := by simpa using h1
            rw [h1'] at hmd
            exact absurd hmd.symm (hno r2 h2)
          · have h1' : r1 = freshNewRec cfg st inp (md5fn inp.content) := by simpa using h1
            have h2' : r2 = freshNewRec cfg st inp (md5fn inp.content) := by simpa using h2
            rw [h1', h2']
            exact ⟨rfl, rfl⟩
      | some ex =>
          rw [upload_eq_dup md5fn cfg st inp ex hsz hf]
          have hex := findLatestByDigest_eq_some st.records (md5fn inp.content) ex hf
          intro r1 h1 r2 h2 hmd
          have key : ∀ x, x ∈ (if ex.expiry_time < inp.now + retentionMs cfg then
              extendExpiryRows st.records (md5fn inp.content) (inp.now + retentionMs cfg)
             else st.records) ++ [dupNewRec cfg st inp ex (md5fn inp.content)] →
              ∃ r ∈ st.records ++ [dupNewRec cfg st inp ex (md5fn inp.content)],
                x.file_md5 = r.file_md5 ∧ x.file_path = r.file_path ∧
                x.filename = r.filename := by
            intro x hx
            rcases List.mem_append.mp hx with hx | hx
            · rcases mem_upload_dup_first_part st.records (md5fn inp.content)
                (inp.now + retentionMs cfg) _ x hx with ⟨r, hr, ha, hb, hc, _⟩
              exact ⟨r, List.mem_append_left _ hr, ha, hb, hc⟩
            · exact ⟨x, List.mem_append_right _ hx, rfl, rfl, rfl⟩
          rcases key r1 h1 with ⟨o1, ho1, hmd1, hp1, hn1⟩
          rcases key r2 h2 with ⟨o2, ho2, hmd2, hp2, hn2⟩
          have hmdo : o1.file_md5 = o2.file_md5 := by rw [← hmd1, ← hmd2, hmd]
          have hfin : o1.file_path = o2.file_path ∧ o1.filename = o2.filename := by
            rcases List.mem_append.mp ho1 with ho1 | ho1 <;>
              rcases List.mem_append.mp ho2 with ho2 | ho2
            · exact hinv o1 ho1 o2 ho2 hmdo
            · have ho2' : o2 = dupNewRec cfg st inp ex (md5fn inp.content) := by simpa using ho2
              have hmd5 : o1.file_md5 = ex.file_md5 := by
                rw [hmdo, ho2']; exact hex.2.1.symm ▸ rfl
              have := hinv o1 ho1 ex hex.1 (by rw [hmd5])
              rw [ho2']
              exact ⟨this.1, this.2⟩
            · have ho1' : o1 = dupNewRec cfg st inp ex (md5fn inp.content) := by simpa using ho1
              have hmd5 : o2.file_md5 = ex.file_md5 := by
                rw [← hmdo, ho1']; exact hex.2.1.symm ▸ rfl
              have := hinv ex hex.1 o2 ho2 (by rw [hmd5])
              rw [ho1']
              exact ⟨this.1.symm ▸ rfl, this.2.symm ▸ rfl⟩
            · have ho1' : o1 = dupNewRec cfg st inp ex (md5fn inp.content) := by simpa using ho1
              have ho2' : o2 = dupNewRec cfg st inp ex (md5fn inp.content) := by simpa using ho2
              rw [ho1', ho2']
              exact ⟨rfl, rfl⟩
          rw [hp1, hp2, hn1, hn2]
          exact hfin
  · intro hinv r1 h1 r2 h2 hmd
    have hrec : (cleanup_expired_files st now).1.records =
        st.records.filter (fun r => !decide (r.expiry_time < now)) := rfl
    rw [hrec] at h1 h2
    exact hinv r1 (List.mem_filter.mp h1).1 r2 (List.mem_filter.mp h2).1 hmd
  · intro r hr
    by_cases hsz : cfg.max_file_size < inp.content.length
    · rw [upload_eq_oversize md5fn cfg st inp hsz]
      exact ⟨r, hr, rfl, rfl, rfl⟩
    · cases hf : findLatestByDigest st.records (md5fn inp.content) with
      | none =>
          rw [upload_eq_fresh md5fn cfg st inp hsz hf]
          exact ⟨r, List.mem_append_left _ hr, rfl, rfl, rfl⟩
      | some ex =>
          rw [upload_eq_dup md5fn cfg st inp ex hsz hf]
          by_cases hext : ex.expiry_time < inp.now + retentionMs cfg
          · rw [if_pos hext]
            refine ⟨if r.file_md5 = md5fn inp.content then
                { r with expiry_time := inp.now + retentionMs cfg } else r, ?_, ?_, ?_, ?_⟩
            · apply List.mem_append_left
              unfold extendExpiryRows
              exact List.mem_map_of_mem _ hr
            · split <;> rfl
            · split <;> rfl
            · split <;> rfl
          · rw [if_neg hext]
            exact ⟨r, List.mem_append_left _ hr, rfl, rfl, rfl⟩
  · intro hsz ex hf
    have hsz' : ¬ cfg.max_file_size < inp.content.length := by omega
    rw [upload_eq_dup md5fn cfg st inp ex hsz' hf]
    refine ⟨dupNewRec cfg st inp ex (md5fn inp.content),
      getLast?_append_singleton _ _, rfl, rfl, ?_⟩
    intro p
    by_cases hext : ex.expiry_time < inp.now + retentionMs cfg <;> simp [hext]
  · intro hsz hf
    have hsz' : ¬ cfg.max_file_size < inp.content.length := by omega
    rw [upload_eq_fresh md5fn cfg st inp hsz' hf]
    exact ⟨freshNewRec cfg st inp (md5fn inp.content),
      getLast?_append_singleton _ _, rfl, by simp⟩

/-- Witness for C10: at the fixture state the invariant holds and is
preserved by the fixture upload, by the invariant theorem applied at the
fixture. -/
theorem claim_C10_witness :
    DigestConsistent (upload_file wMd5 wCfg wSt wInp).state.records :=
  (claim_C10_digest_path_invariant wMd5 wCfg wSt wInp 0).1 (by decide)

/-! ## Claim C1 -/

theorem filter_digest_nil (l : List FileRecord) (d : List Char)
    (h : ∀ r ∈ l, r.file_md5 ≠ d) :
    l.filter (fun r => decide (r.file_md5 = d)) = [] := by
  rw [List.filter_eq_nil_iff]
  intro r hr
  simp [h r hr]

theorem filter_digest_extend_nil (l : List FileRecord) (d : List Char) (e : Nat)
    (h : ∀ r ∈ l, r.file_md5 ≠ d) :
    (extendExpiryRows l d e).filter (fun r => decide (r.file_md5 = d)) = [] := by
  rw [List.filter_eq_nil_iff]
  intro x hx
  rcases extendExpiryRows_fields l d e x hx with ⟨r, hr, hmd, _⟩
  simp [hmd, h r hr]

theorem digestRetention_two (A : List FileRecord) (x y : FileRecord) (d : List Char)
    (hA : A.filter (fun r => decide (r.file_md5 = d)) = [])
    (hx : x.file_md5 = d) (hy : y.file_md5 = d) :
    digestRetention ((A ++ [x]) ++ [y]) d = max x.expiry_time y.expiry_time := by
  unfold digestRetention
  rw [List.filter_append, List.filter_append, hA, List.nil_append]
  have hfx : ([x].filter (fun r => decide (r.file_md5 = d))) = [x] := by simp [hx]
  have hfy : ([y].filter (fun r => decide (r.file_md5 = d))) = [y] := by simp [hy]
  rw [hfx, hfy]
  simp only [List.foldl_append, List.foldl_cons, List.foldl_nil]
  rw [Nat.zero_max]

/-- C1: two upload calls with identical byte content within the size
limit (each share code fresh, per the generation-loop postcondition, and
the digest not previously stored) both succeed, return two distinct share
codes, add two rows, write the physical blob exactly once with the second
call reusing the path and stored filename of the row created by the first
and writing no bytes, and leave the retention of the blob digest equal to
the maximum of the two expiry times. -/
theorem claim_C1_dedup_single_blob (md5fn : List Nat → List Char)
    (cfg : EngineSettings) (st : SystemState) (inp1 inp2 : UploadInput)
    (hc : inp2.content = inp1.content)
    (hsz : inp1.content.length ≤ cfg.max_file_size)
    (hfresh : ∀ r ∈ st.records, r.file_md5 ≠ md5fn inp1.content)
    (hcode2 : inp2.shareCode ∉
      (upload_file md5fn cfg st inp1).state.records.map (fun r => r.share_code)) :
    ((upload_file md5fn cfg st inp1).result = .ok (uploadOkResponse cfg inp1) ∧
      (upload_file md5fn cfg (upload_file md5fn cfg st inp1).state inp2).result =
        .ok (uploadOkResponse cfg inp2)) ∧
    inp1.shareCode ≠ inp2.shareCode ∧
    (upload_file md5fn cfg (upload_file md5fn cfg st inp1).state inp2).state.records.length =
      st.records.length + 2 ∧
    (∃ r1 r2,
      (upload_file md5fn cfg st inp1).state.records.getLast? = some r1 ∧
      (upload_file md5fn cfg (upload_file md5fn cfg st inp1).state inp2).state.records.getLast? =
        some r2 ∧
      r1.share_code = inp1.shareCode ∧ r2.share_code = inp2.shareCode ∧
      r2.file_path = r1.file_path ∧ r2.filename = r1.filename) ∧
    (countWrites (upload_file md5fn cfg st inp1).trace = 1 ∧
      countWrites (upload_file md5fn cfg (upload_file md5fn cfg st inp1).state inp2).trace = 0 ∧
      (upload_file md5fn cfg (upload_file md5fn cfg st inp1).state inp2).state.disk =
        (upload_file md5fn cfg st inp1).state.disk) ∧
    digestRetention
        (upload_file md5fn cfg (upload_file md5fn cfg st inp1).state inp2).state.records
        (md5fn inp1.content) =
      max (inp1.now + retentionMs cfg) (inp2.now + retentionMs cfg) := by
  have hsz1' : ¬ cfg.max_file_size < inp1.content.length := by omega
  have hsz2' : ¬ cfg.max_file_size < inp2.content.length := by rw [hc]; omega
  have hd2 : md5fn inp2.content = md5fn inp1.content := by rw [hc]
  have hf1 : findLatestByDigest st.records (md5fn inp1.content) = none :=
    (findLatestByDigest_eq_none st.records (md5fn inp1.content)).mpr hfresh
  have h1 := upload_eq_fresh md5fn cfg st inp1 hsz1' hf1
  have hrec1 : (upload_file md5fn cfg st inp1).state.records =
      st.records ++ [freshNewRec cfg st inp1 (md5fn inp1.content)] := by rw [h1]
  have hfrd : (freshNewRec cfg st inp1 (md5fn inp1.content)).file_md5 = md5fn inp1.content := rfl
  have hfilter1 : (st.records ++ [freshNewRec cfg st inp1 (md5fn inp1.content)]).filter
      (fun r => decide (r.file_md5 = md5fn inp1.content)) =
      [freshNewRec cfg st inp1 (md5fn inp1.content)] := by
    rw [List.filter_append, filter_digest_nil st.records (md5fn inp1.content) hfresh]
    simp [hfrd]
  have hf2 : findLatestByDigest (upload_file md5fn cfg st inp1).state.records
      (md5fn inp2.content) = some (freshNewRec cfg st inp1 (md5fn inp1.content)) := by
    rw [hd2, hrec1]
    unfold findLatestByDigest
    rw [hfilter1]
    rfl
  have h2 := upload_eq_dup md5fn cfg (upload_file md5fn cfg st inp1).state inp2
    (freshNewRec cfg st inp1 (md5fn inp1.content)) hsz2' hf2
  have hfre : (freshNewRec cfg st inp1 (md5fn inp1.content)).expiry_time =
      inp1.now + retentionMs cfg := rfl
  refine ⟨⟨by rw [h1], by rw [h2]⟩, ?_, ?_, ?_, ?_, ?_⟩
  · intro heq
    apply hcode2
    rw [hrec1]
    refine List.mem_map.mpr ⟨freshNewRec cfg st inp1 (md5fn inp1.content), ?_, ?_⟩
    · exact List.mem_append_right _ (by simp)
    · rw [← heq]; rfl
  · rw [h2]
    simp only [List.length_append]
    have hif : (if (freshNewRec cfg st inp1 (md5fn inp1.content)).expiry_time <
        inp2.now + retentionMs cfg then
          extendExpiryRows (upload_file md5fn cfg st inp1).state.records
            (md5fn inp2.content) (inp2.now + retentionMs cfg)
        else (upload_file md5fn cfg st inp1).state.records).length =
        (upload_file md5fn cfg st inp1).state.records.length := by
      split
      · unfold extendExpiryRows; rw [List.length_map]
      · rfl
    rw [hif, hrec1]
    simp
  · refine ⟨freshNewRec cfg st inp1 (md5fn inp1.content),
      dupNewRec cfg (upload_file md5fn cfg st inp1).state inp2
        (freshNewRec cfg st inp1 (md5fn inp1.content)) (md5fn inp2.content),
      ?_, ?_, rfl, rfl, rfl, rfl⟩
    · rw [hrec1]
      exact getLast?_append_singleton _ _
    · rw [h2]
      exact getLast?_append_singleton _ _
  · refine ⟨?_, ?_, by rw [h2]⟩
    · rw [h1]
      simp [countWrites, isDiskWriteEv]
    · rw [h2]
      by_cases hext : (freshNewRec cfg st inp1 (md5fn inp1.content)).expiry_time <
          inp2.now + retentionMs cfg <;>
        simp [hext, countWrites, isDiskWriteEv]
  · rw [h2]
    by_cases hext : (freshNewRec cfg st inp1 (md5fn inp1.content)).expiry_time <
        inp2.now + retentionMs cfg
    · rw [if_pos hext]
      rw [hrec1, hd2]
      have hmap : extendExpiryRows
          (st.records ++ [freshNewRec cfg st inp1 (md5fn inp1.content)])
          (md5fn inp1.content) (inp2.now + retentionMs cfg) =
          extendExpiryRows st.records (md5fn inp1.content) (inp2.now + retentionMs cfg) ++
          [{ freshNewRec cfg st inp1 (md5fn inp1.content) with
              expiry_time := inp2.now + retentionMs cfg }] := by
        unfold extendExpiryRows
        rw [List.map_append]
        simp [hfrd]
      rw [hmap]
      rw [digestRetention_two _ _ _ _
        (filter_digest_extend_nil st.records (md5fn inp1.content) _ hfresh) rfl rfl]
      rw [hfre] at hext
      have h1e : ({ freshNewRec cfg st inp1 (md5fn inp1.content) with
          expiry_time := inp2.now + retentionMs cfg } : FileRecord).expiry_time =
          inp2.now + retentionMs cfg := rfl
      have hde : (dupNewRec cfg (upload_file md5fn cfg st inp1).state inp2
          (freshNewRec cfg st inp1 (md5fn inp1.content)) (md5fn inp1.content)).expiry_time =
          inp2.now + retentionMs cfg := rfl
      rw [h1e, hde, Nat.max_self, Nat.max_eq_right (Nat.le_of_lt hext)]
    · rw [if_neg hext]
      rw [hrec1, hd2]
      rw [digestRetention_two _ _ _ _
        (filter_digest_nil st.records (md5fn inp1.content) hfresh) rfl rfl]
      rfl

/-- Witness for C1: two concrete uploads of the same two bytes from the
empty state write one blob, the second writes nothing, and the digest
retention is the later expiry, by the deduplication theorem applied at the
fixtures. -/
theorem claim_C1_witness :
    countWrites (upload_file wMd5 wCfg wSt0 wInp).trace = 1 ∧
    countWrites (upload_file wMd5 wCfg (upload_file wMd5 wCfg wSt0 wInp).state wInp2).trace = 0 ∧
    digestRetention
        (upload_file wMd5 wCfg (upload_file wMd5 wCfg wSt0 wInp).state wInp2).state.records
        (wMd5 wInp.content) =
      max (wInp.now + retentionMs wCfg) (wInp2.now + retentionMs wCfg) := by
  have h := claim_C1_dedup_single_blob wMd5 wCfg wSt0 wInp wInp2 rfl (by decide)
    (by decide) (by decide)
  exact ⟨h.2.2.2.2.1.1, h.2.2.2.2.1.2.1, h.2.2.2.2.2⟩

/-! ## Character lemmas for the size parser -/

theorem charEq_iff (a b : Char) : a = b ↔ a.toNat = b.toNat :=
  ⟨fun h => by rw [h], fun h => by rw [← Char.ofNat_toNat a, ← Char.ofNat_toNat b, h]⟩

theorem toNat_ofNat_lt (n : Nat) (h : n < 0xd800) : (Char.ofNat n).toNat = n := by
  unfold Char.ofNat
  rw [dif_pos (Or.inl h)]
  rfl

theorem toNat_upChar (c : Char) :
    (upChar c).toNat = if 97 ≤ c.toNat ∧ c.toNat ≤ 122 then c.toNat - 32 else c.toNat := by
  unfold upChar
  split_ifs with h
  · exact toNat_ofNat_lt _ (by omega)
  · rfl

theorem bool_eq_of_iff {a b : Bool} (h : a = true ↔ b = true) : a = b := by
  cases a <;> cases b <;> simp_all

theorem ndBases_props : ∀ b ∈ ndBases, ∀ k ∈ List.range 10,
    isPySpaceN (b + k) = false ∧ ¬(97 ≤ b + k ∧ b + k ≤ 122) := by decide

theorem ndBases_outside : ∀ b ∈ ndBases, b + 9 < 65 ∨ 122 < b := by decide

theorem ndBaseOf_none_mid (m : Nat) (h1 : 65 ≤ m) (h2 : m ≤ 122) : ndBaseOf m = none := by
  unfold ndBaseOf
  rw [List.find?_eq_none]
  intro b hb
  have := ndBases_outside b hb
  simp only [Bool.and_eq_true, decide_eq_true_eq, not_and]
  omega

theorem ndBaseOf_some_facts (n b : Nat) (h : ndBaseOf n = some b) :
    b ∈ ndBases ∧ b ≤ n ∧ n ≤ b + 9 := by
  unfold ndBaseOf at h
  refine ⟨List.mem_of_find?_eq_some h, ?_⟩
  have hp := List.find?_some h
  simp only [Bool.and_eq_true, decide_eq_true_eq] at hp
  exact hp

theorem isPyDigit_facts (c : Char) (h : isPyDigit c = true) :
    isPySpaceN c.toNat = false ∧ ¬(97 ≤ c.toNat ∧ c.toNat ≤ 122) := by
  unfold isPyDigit at h
  cases hb : ndBaseOf c.toNat with
  | none => rw [hb] at h; cases h
  | some b =>
      rcases ndBaseOf_some_facts _ _ hb with ⟨hmem, hle, hge⟩
      have hk : c.toNat - b ∈ List.range 10 := List.mem_range.mpr (by omega)
      have hpr := ndBases_props b hmem (c.toNat - b) hk
      have heq : b + (c.toNat - b) = c.toNat := by omega
      rw [heq] at hpr
      exact hpr

theorem isPySpace_toNat (c : Char) : isPySpace c = true ↔
    (c.toNat = 32 ∨ c.toNat = 9 ∨ c.toNat = 10 ∨ c.toNat = 13 ∨ c.toNat = 11 ∨ c.toNat = 12 ∨
     (28 ≤ c.toNat ∧ c.toNat ≤ 31) ∨ c.toNat = 0x85 ∨ c.toNat = 0xa0 ∨ c.toNat = 0x1680 ∨
     (0x2000 ≤ c.toNat ∧ c.toNat ≤ 0x200a) ∨ c.toNat = 0x2028 ∨ c.toNat = 0x2029 ∨
     c.toNat = 0x202f ∨ c.toNat = 0x205f ∨ c.toNat = 0x3000) := by
  unfold isPySpace isPySpaceN
  simp only [Bool.or_eq_true, Bool.and_eq_true, decide_eq_true_eq]
  tauto

theorem isPyDigit_upChar (c : Char) : isPyDigit (upChar c) = isPyDigit c := by
  by_cases hlow : 97 ≤ c.toNat ∧ c.toNat ≤ 122
  · have h1 : (upChar c).toNat = c.toNat - 32 := by rw [toNat_upChar, if_pos hlow]
    unfold isPyDigit
    rw [h1, ndBaseOf_none_mid (c.toNat - 32) (by omega) (by omega),
      ndBaseOf_none_mid c.toNat (by omega) (by omega)]
  · unfold upChar
    rw [if_neg hlow]

theorem isPySpace_upChar (c : Char) : isPySpace (upChar c) = isPySpace c := by
  apply bool_eq_of_iff
  rw [isPySpace_toNat, isPySpace_toNat, toNat_upChar]
  split_ifs <;> omega

theorem upChar_upChar (c : Char) : upChar (upChar c) = upChar c := by
  rw [charEq_iff, toNat_upChar, toNat_upChar]
  split_ifs <;> omega

theorem upChar_eq_dot_iff (c : Char) : upChar c = '.' ↔ c = '.' := by
  rw [charEq_iff, charEq_iff, toNat_upChar]
  have hd : ('.' : Char).toNat = 46 := rfl
  rw [hd]
  split_ifs <;> omega

theorem upChar_eq_B_iff (c : Char) : upChar c = 'B' ↔ (c = 'B' ∨ c = 'b') := by
  rw [charEq_iff, charEq_iff, charEq_iff, toNat_upChar]
  have h1 : ('B' : Char).toNat = 66 := rfl
  have h2 : ('b' : Char).toNat = 98 := rfl
  rw [h1, h2]
  split_ifs <;> omega

theorem upChar_eq_K_iff (c : Char) : upChar c = 'K' ↔ (c = 'K' ∨ c = 'k') := by
  rw [charEq_iff, charEq_iff, charEq_iff, toNat_upChar]
  have h1 : ('K' : Char).toNat = 75 := rfl
  have h2 : ('k' : Char).toNat = 107 := rfl
  rw [h1, h2]
  split_ifs <;> omega

theorem upChar_eq_M_iff (c : Char) : upChar c = 'M' ↔ (c = 'M' ∨ c = 'm') := by
  rw [charEq_iff, charEq_iff, charEq_iff, toNat_upChar]
  have h1 : ('M' : Char).toNat = 77 := rfl
  have h2 : ('m' : Char).toNat = 109 := rfl
  rw [h1, h2]
  split_ifs <;> omega

theorem upChar_eq_G_iff (c : Char) : upChar c = 'G' ↔ (c = 'G' ∨ c = 'g') := by
  rw [charEq_iff, charEq_iff, charEq_iff, toNat_upChar]
  have h1 : ('G' : Char).toNat = 71 := rfl
  have h2 : ('g' : Char).toNat = 103 := rfl
  rw [h1, h2]
  split_ifs <;> omega

theorem upChar_digit (c : Char) (h : isPyDigit c = true) : upChar c = c := by
  have hf := isPyDigit_facts c h
  unfold upChar
  rw [if_neg hf.2]

theorem digit_not_pyspace (c : Char) (h : isPyDigit c = true) : isPySpace c = false := by
  have hf := isPyDigit_facts c h
  unfold isPySpace
  exact hf.1

theorem takeWhile_map_same (f : Char → Char) (p : Char → Bool)
    (hp : ∀ c, p (f c) = p c) (l : List Char) :
    (l.map f).takeWhile p = (l.takeWhile p).map f := by
  induction l with
  | nil => rfl
  | cons a t ih =>
      simp only [List.map_cons, List.takeWhile_cons, hp a]
      cases hpa : p a <;> simp [ih]

theorem dropWhile_map_same (f : Char → Char) (p : Char → Bool)
    (hp : ∀ c, p (f c) = p c) (l : List Char) :
    (l.map f).dropWhile p = (l.dropWhile p).map f := by
  induction l with
  | nil => rfl
  | cons a t ih =>
      simp only [List.map_cons, List.dropWhile_cons, hp a]
      cases hpa : p a <;> simp [ih]

theorem stripBoth_map_same (f : Char → Char) (p : Char → Bool)
    (hp : ∀ c, p (f c) = p c) (l : List Char) :
    stripBoth p (l.map f) = (stripBoth p l).map f := by
  unfold stripBoth
  rw [dropWhile_map_same f p hp, ← List.map_reverse, dropWhile_map_same f p hp,
    List.map_reverse]

theorem isEmpty_map (f : Char → Char) (l : List Char) : (l.map f).isEmpty = l.isEmpty := by
  cases l <;> rfl

theorem unitMult_upper_isSome (r : List Char) :
    (unitMult (r.map upChar)).isSome = unitOkCI r := by
  apply bool_eq_of_iff
  match r with
  | [] => simp [unitMult, unitOkCI]
  | [c] =>
      simp only [List.map_cons, List.map_nil, unitMult, unitOkCI]
      by_cases hB : upChar c = 'B'
      · rcases (upChar_eq_B_iff c).mp hB with h | h <;> subst h <;> decide
      · have h1 : ¬ c = 'B' := fun h => hB (by subst h; rfl)
        have h2 : ¬ c = 'b' := fun h => hB (by subst h; rfl)
        simp [hB, h1, h2]
  | [c1, c2] =>
      simp only [List.map_cons, List.map_nil, unitMult, unitOkCI]
      by_cases hB : upChar c2 = 'B'
      · by_cases hK : upChar c1 = 'K'
        · rcases (upChar_eq_K_iff c1).mp hK with h | h <;>
            rcases (upChar_eq_B_iff c2).mp hB with h2 | h2 <;>
              subst h <;> subst h2 <;> decide
        · by_cases hM : upChar c1 = 'M'
          · rcases (upChar_eq_M_iff c1).mp hM with h | h <;>
              rcases (upChar_eq_B_iff c2).mp hB with h2 | h2 <;>
                subst h <;> subst h2 <;> decide
          · by_cases hG : upChar c1 = 'G'
            · rcases (upChar_eq_G_iff c1).mp hG with h | h <;>
                rcases (upChar_eq_B_iff c2).mp hB with h2 | h2 <;>
                  subst h <;> subst h2 <;> decide
            · have nk : ¬ c1 = 'K' := fun h => hK (by subst h; rfl)
              have nk' : ¬ c1 = 'k' := fun h => hK (by subst h; rfl)
              have nm : ¬ c1 = 'M' := fun h => hM (by subst h; rfl)
              have nm' : ¬ c1 = 'm' := fun h => hM (by subst h; rfl)
              have ng : ¬ c1 = 'G' := fun h => hG (by subst h; rfl)
              have ng' : ¬ c1 = 'g' := fun h => hG (by subst h; rfl)
              simp [hK, hM, hG, nk, nk', nm, nm', ng, ng']
      · have h1 : ¬ c2 = 'B' := fun h => hB (by subst h; rfl)
        have h2 : ¬ c2 = 'b' := fun h => hB (by subst h; rfl)
        simp [hB, h1, h2]
  | c1 :: c2 :: c3 :: t =>
      simp [unitMult, unitOkCI]

theorem fracSplit_map (l : List Char) :
    fracSplit (l.map upChar) =
      ((fracSplit l).1.map upChar, (fracSplit l).2.map upChar) := by
  cases l with
  | nil => rfl
  | cons c rest =>
      simp only [List.map_cons, fracSplit]
      by_cases hc : c = '.'
      · subst hc
        rw [if_pos (by decide : upChar '.' = '.'), if_pos rfl]
        rw [takeWhile_map_same upChar isPyDigit isPyDigit_upChar,
          dropWhile_map_same upChar isPyDigit isPyDigit_upChar,
          isEmpty_map]
        by_cases he : (rest.takeWhile isPyDigit).isEmpty
        · rw [if_pos he, if_pos he]
          rfl
        · rw [if_neg he, if_neg he]
      · have hc' : ¬ upChar c = '.' := fun h => hc ((upChar_eq_dot_iff c).mp h)
        rw [if_neg hc', if_neg hc]
        rfl

theorem matchNumber_upper_isSome (cs : List Char) :
    (matchNumber (cs.map upChar)).isSome =
      (if (cs.takeWhile isPyDigit).isEmpty then false
       else unitOkCI ((fracSplit (cs.dropWhile isPyDigit)).2.dropWhile isPySpace)) := by
  unfold matchNumber
  dsimp only
  rw [takeWhile_map_same upChar isPyDigit isPyDigit_upChar,
    dropWhile_map_same upChar isPyDigit isPyDigit_upChar, isEmpty_map]
  by_cases he : (cs.takeWhile isPyDigit).isEmpty
  · rw [if_pos he, if_pos he]
    rfl
  · rw [if_neg he, if_neg he]
    rw [fracSplit_map]
    rw [dropWhile_map_same upChar isPySpace isPySpace_upChar]
    have key := unitMult_upper_isSome
      ((fracSplit (cs.dropWhile isPyDigit)).2.dropWhile isPySpace)
    cases hu : unitMult
        (((fracSplit (cs.dropWhile isPyDigit)).2.dropWhile isPySpace).map upChar) with
    | none => rw [hu] at key; simp at key; simp [key]
    | some m => rw [hu] at key; simp at key; simp [key]

theorem dropWhile_eq_self_of_not (p : Char → Bool) (l : List Char)
    (h : ∀ c ∈ l, p c = false) : l.dropWhile p = l := by
  cases l with
  | nil => rfl
  | cons a t =>
      rw [List.dropWhile_cons, h a (List.mem_cons_self a t)]
      simp

theorem takeWhile_eq_self_of_all (p : Char → Bool) (l : List Char)
    (h : ∀ c ∈ l, p c = true) : l.takeWhile p = l := by
  induction l with
  | nil => rfl
  | cons a t ih =>
      rw [List.takeWhile_cons, h a (List.mem_cons_self a t)]
      simp [ih fun c hc => h c (List.mem_cons_of_mem a hc)]

theorem dropWhile_eq_nil_of_all (p : Char → Bool) (l : List Char)
    (h : ∀ c ∈ l, p c = true) : l.dropWhile p = [] := by
  induction l with
  | nil => rfl
  | cons a t ih =>
      rw [List.dropWhile_cons, h a (List.mem_cons_self a t)]
      simp [ih fun c hc => h c (List.mem_cons_of_mem a hc)]

theorem map_eq_self_of (f : Char → Char) (l : List Char)
    (h : ∀ c ∈ l, f c = c) : l.map f = l := by
  induction l with
  | nil => rfl
  | cons a t ih =>
      rw [List.map_cons, h a (List.mem_cons_self a t),
        ih fun c hc => h c (List.mem_cons_of_mem a hc)]

/-! ## Claim C8 -/

theorem natLog2Aux_bounds : ∀ (fuel n : Nat), 1 ≤ n → n ≤ fuel →
    2 ^ natLog2Aux fuel n ≤ n ∧ n < 2 ^ (natLog2Aux fuel n + 1) := by
  intro fuel
  induction fuel with
  | zero => intro n h1 h2; omega
  | succ f ih =>
      intro n h1 h2
      unfold natLog2Aux
      by_cases h2n : 2 ≤ n
      · rw [if_pos h2n]
        have hhalf := ih (n / 2) (by omega) (by omega)
        rcases hhalf with ⟨hl, hr⟩
        constructor
        · rw [pow_succ]
          omega
        · rw [pow_succ, pow_succ] at *
          omega
      · rw [if_neg h2n]
        have hn1 : n = 1 := by omega
        rw [hn1]
        omega

theorem natLog2_bounds (n : Nat) (h1 : 1 ≤ n) :
    2 ^ natLog2 n ≤ n ∧ n < 2 ^ (natLog2 n + 1) :=
  natLog2Aux_bounds n n h1 (le_refl n)

theorem natLog2_le_of_lt_pow (n k : Nat) (h1 : 1 ≤ n) (h : n < 2 ^ (k + 1)) :
    natLog2 n ≤ k := by
  by_contra hgt
  have hb := (natLog2_bounds n h1).1
  have hk : k + 1 ≤ natLog2 n := by omega
  have := Nat.pow_le_pow_right (by omega : 1 ≤ 2) hk
  omega

theorem floorLog2_int (v : Nat) (h1 : 1 ≤ v) : floorLog2 v 1 = (natLog2 v : Int) := by
  have hle : 2 ^ natLog2 v ≤ v := (natLog2_bounds v h1).1
  have htw : twoPowLe v 1 ((natLog2 v : Int) - (natLog2 1 : Int)) = true := by
    unfold twoPowLe
    have h0 : (natLog2 1 : Int) = 0 := rfl
    rw [h0, sub_zero]
    rw [if_pos (by omega : (0 : Int) ≤ (natLog2 v : Int))]
    have ht : (natLog2 v : Int).toNat = natLog2 v := by omega
    rw [ht, one_mul]
    exact decide_eq_true hle
  unfold floorLog2
  dsimp only
  rw [htw]
  have h0 : (natLog2 1 : Int) = 0 := rfl
  rw [if_pos rfl, h0, sub_zero]

theorem rnAtGrid_one_exact (v a : Nat) (ha : a ≤ 52) :
    rnAtGrid v 1 ((a : Int) - 52) = v * 2 ^ (52 - a) := by
  unfold rnAtGrid
  dsimp only
  by_cases hg : (0 : Int) ≤ (a : Int) - 52
  · have ha52 : a = 52 := by omega
    subst ha52
    rw [if_pos hg, if_pos hg]
    have ht : (((52 : Nat) : Int) - 52).toNat = 0 := by omega
    rw [ht]
    simp [Nat.mod_one, Nat.div_one]
  · rw [if_neg hg, if_neg hg]
    have ht : (-(((a : Nat) : Int) - 52)).toNat = 52 - a := by omega
    rw [ht]
    simp [Nat.mod_one, Nat.div_one]

theorem dyadicOverflow_small_false (v a : Nat) (ha : a ≤ 52) (hv : v < 2 ^ 53) :
    dyadicOverflow (v * 2 ^ (52 - a)) ((a : Int) - 52) = false := by
  have h2 : (2 : Nat) ^ 53 ≤ 2 ^ 1024 := Nat.pow_le_pow_right (by omega) (by omega)
  unfold dyadicOverflow
  by_cases hg : (0 : Int) ≤ (a : Int) - 52
  · have ha52 : a = 52 := by omega
    subst ha52
    rw [if_pos hg]
    have ht : (((52 : Nat) : Int) - 52).toNat = 0 := by omega
    rw [ht]
    simp only [Nat.sub_self, pow_zero, mul_one]
    exact decide_eq_false (by omega)
  · rw [if_neg hg]
    have ht : (-(((a : Nat) : Int) - 52)).toNat = 52 - a := by omega
    rw [ht]
    have hpos : 0 < 2 ^ (52 - a) := Nat.pos_pow_of_pos _ (by omega)
    have hlt : v * 2 ^ (52 - a) < 2 ^ (1024 + (52 - a)) := by
      rw [pow_add]
      exact (Nat.mul_lt_mul_right hpos).mpr (by omega)
    exact decide_eq_false (by omega)

theorem dyadicFloor_small (v a : Nat) (ha : a ≤ 52) :
    dyadicFloor (v * 2 ^ (52 - a)) ((a : Int) - 52) = v := by
  unfold dyadicFloor
  by_cases hg : (0 : Int) ≤ (a : Int) - 52
  · have ha52 : a = 52 := by omega
    subst ha52
    rw [if_pos hg]
    have ht : (((52 : Nat) : Int) - 52).toNat = 0 := by omega
    rw [ht]
    simp
  · rw [if_neg hg]
    have ht : (-(((a : Nat) : Int) - 52)).toNat = 52 - a := by omega
    rw [ht]
    exact Nat.mul_div_cancel v (Nat.pos_pow_of_pos _ (by omega))

/-- Integers below 2 to the 53 are exactly representable in binary64: on
such a value the correctly rounded conversion is the identity. -/
theorem roundDouble_small_int (v : Nat) (h1 : 1 ≤ v) (hv : v < 2 ^ 53) :
    roundDouble v 1 = some (v * 2 ^ (52 - natLog2 v), (natLog2 v : Int) - 52) := by
  have ha : natLog2 v ≤ 52 := natLog2_le_of_lt_pow v 52 h1 hv
  unfold roundDouble
  dsimp only
  rw [floorLog2_int v h1]
  rw [if_neg (by omega : ¬ ((natLog2 v : Int) - 52 < -1074))]
  rw [rnAtGrid_one_exact v (natLog2 v) ha]
  rw [dyadicOverflow_small_false v (natLog2 v) ha hv]
  rfl

/-- On a bare digit string whose value is below 2 to the 53, the
int(float(number) * 1) pipeline is the identity. -/
theorem pyIntOfSize_barecount (l : List Char) (hv : digitsToNat l < 2 ^ 53) :
    pyIntOfSize l [] 1 = some (digitsToNat l) := by
  unfold pyIntOfSize
  dsimp only
  rw [List.append_nil]
  have hden : (10 : Nat) ^ (List.length ([] : List Char)) = 1 := rfl
  rw [hden]
  by_cases h0 : digitsToNat l = 0
  · rw [h0]
    rfl
  · have ha : natLog2 (digitsToNat l) ≤ 52 :=
      natLog2_le_of_lt_pow (digitsToNat l) 52 (by omega) hv
    rw [roundDouble_small_int (digitsToNat l) (by omega) hv]
    dsimp only
    rw [mul_one]
    rw [dyadicOverflow_small_false (digitsToNat l) (natLog2 (digitsToNat l)) ha hv]
    rw [dyadicFloor_small (digitsToNat l) (natLog2 (digitsToNat l)) ha]
    rfl

/-- C8 counterexample: the bare byte count 9007199254740993 (one above 2
to the 53) is parsed through the interpreter double, which rounds it to
the even neighbour 9007199254740992, so the parser does not map every
bare byte count to itself. -/
theorem claim_C8_counterexample :
    parse_file_size (.str "9007199254740993".toList) = .ok 9007199254740992 ∧
    digitsToNat "9007199254740993".toList = 9007199254740993 ∧
    (9007199254740992 : Int) ≠ 9007199254740993 := by
  refine ⟨by decide, by decide, by decide⟩

/-- C8 amended: the size parser maps the string 100MB to 104857600 and
the string 1GB to 1073741824 bytes, passes an int through unchanged, maps
a bare byte count below 2 to the 53 to itself (a larger count is rounded
through the interpreter binary64 precision), is case-insensitive
(upper-casing the input never changes acceptance or the parsed value),
raises the ValueError on exactly the strings that are not a number with
optional whitespace and an optional recognised B, KB, MB, GB suffix in
either case (a well-formed numeral whose float conversion overflows
raises OverflowError instead, also failing the load), and in particular
fails on the string abc with the ValueError rather than defaulting. -/
theorem claim_C8_size_parsing :
    parse_file_size (.str "100MB".toList) = .ok 104857600 ∧
    parse_file_size (.str "1GB".toList) = .ok 1073741824 ∧
    (∀ n : Int, parse_file_size (.int n) = .ok n) ∧
    (∀ l : List Char, l ≠ [] → (∀ c ∈ l, isPyDigit c = true) →
      digitsToNat l < 2 ^ 53 →
      parse_file_size (.str l) = .ok ((digitsToNat l : Nat) : Int)) ∧
    (∀ s : List Char, (parse_file_size (.str (s.map upChar))).toOption =
      (parse_file_size (.str s)).toOption) ∧
    (∀ s : List Char, (∃ msg, parse_file_size (.str s) = .error (.invalidFormat msg)) ↔
      isSizeShape s = false) ∧
    parse_file_size (.str "abc".toList) =
      .error (.invalidFormat
        ("Invalid file size format: abc. Use formats like: 100MB, 1GB, 500MB".toList)) := by
  refine ⟨by decide, by decide, fun n => rfl, ?_, ?_, ?_, by decide⟩
  · intro l hne hd hsmall
    have hstrip : stripBoth isPySpace l = l := by
      unfold stripBoth
      have h1 : l.dropWhile isPySpace = l :=
        dropWhile_eq_self_of_not _ _ fun c hc => digit_not_pyspace c (hd c hc)
      rw [h1]
      have h2 : l.reverse.dropWhile isPySpace = l.reverse :=
        dropWhile_eq_self_of_not _ _ fun c hc =>
          digit_not_pyspace c (hd c (List.mem_reverse.mp hc))
      rw [h2, List.reverse_reverse]
    have hmap : l.map upChar = l :=
      map_eq_self_of _ _ fun c hc => upChar_digit c (hd c hc)
    have hemp : l.isEmpty = false := by
      cases l with
      | nil => exact absurd rfl hne
      | cons a t => rfl
    have hmn : matchNumber l = some (l, [], 1) := by
      unfold matchNumber
      dsimp only
      rw [takeWhile_eq_self_of_all _ _ hd, dropWhile_eq_nil_of_all _ _ hd, hemp]
      rfl
    unfold parse_file_size
    dsimp only
    rw [hstrip, hmap, hmn]
    dsimp only
    rw [pyIntOfSize_barecount l hsmall]
  · intro s
    unfold parse_file_size
    dsimp only
    rw [stripBoth_map_same upChar isPySpace isPySpace_upChar s, List.map_map]
    have hcomp : (upChar ∘ upChar) = upChar := funext upChar_upChar
    rw [hcomp]
    cases hm : matchNumber ((stripBoth isPySpace s).map upChar) with
    | none => rfl
    | some t => rfl
  · intro s
    unfold parse_file_size isSizeShape
    dsimp only
    have key := matchNumber_upper_isSome (stripBoth isPySpace s)
    cases hm : matchNumber ((stripBoth isPySpace s).map upChar) with
    | none =>
        rw [hm] at key
        simp only [Option.isSome_none] at key
        constructor
        · intro _
          exact key.symm
        · intro _
          exact ⟨_, rfl⟩
    | some t =>
        obtain ⟨d1, d2, mult⟩ := t
        rw [hm] at key
        simp only [Option.isSome_some] at key
        constructor
        · rintro ⟨msg, hmsg⟩
          dsimp only at hmsg
          cases hp : pyIntOfSize d1 d2 mult with
          | some b => rw [hp] at hmsg; simp at hmsg
          | none => rw [hp] at hmsg; simp at hmsg
        · intro hsh
          exact absurd (key.trans hsh) (by decide)

/-- Witness for C8: a concrete bare byte count below 2 to the 53 parses
to itself and a concrete lower-case size parses like its upper-cased
form, by the parser theorem applied at those strings. -/
theorem claim_C8_witness :
    parse_file_size (.str "12345".toList) = .ok 12345 ∧
    (parse_file_size (.str ("100mb".toList.map upChar))).toOption =
      (parse_file_size (.str "100mb".toList)).toOption := by
  constructor
  · exact claim_C8_size_parsing.2.2.2.1 "12345".toList (by decide) (by decide) (by decide)
  · exact claim_C8_size_parsing.2.2.2.2.1 "100mb".toList

/-! ## Claim C9 -/

theorem head_dropWhile_false (p : Char → Bool) :
    ∀ (l : List Char) (c : Char) (t : List Char), l.dropWhile p = c :: t → p c = false := by
  intro l
  induction l with
  | nil => intro c t h; cases h
  | cons a t' ih =>
      intro c t h
      rw [List.dropWhile_cons] at h
      by_cases hpa : p a = true
      · rw [if_pos hpa] at h
        exact ih c t h
      · rw [if_neg hpa] at h
        injection h with h1 _
        rw [← h1]
        exact Bool.eq_false_iff.mpr hpa

theorem rsplitDot_eq_some (l name ext : List Char)
    (h : rsplitDot l = some (name, ext)) : l = name ++ '.' :: ext := by
  unfold rsplitDot at h
  dsimp only at h
  cases hr : l.reverse.dropWhile (fun c => !(c = '.' : Bool)) with
  | nil => rw [hr] at h; cases h
  | cons c nameR =>
      rw [hr] at h
      injection h with h
      injection h with h1 h2
      have hc : c = '.' := by
        have := head_dropWhile_false _ _ _ _ hr
        simpa using this
      have hsplit : l.reverse.takeWhile (fun c => !(c = '.' : Bool)) ++
          (c :: nameR) = l.reverse := by
        rw [← hr]
        exact List.takeWhile_append_dropWhile _ _
      have : l = (c :: nameR).reverse ++
          (l.reverse.takeWhile (fun c => !(c = '.' : Bool))).reverse := by
        have h4 := congrArg List.reverse hsplit
        rw [List.reverse_append, List.reverse_reverse] at h4
        exact h4.symm
      rw [this, hc, ← h1, ← h2]
      rw [List.reverse_cons, List.append_assoc]
      rfl

theorem all_pyspace_false_of_dot (g : List Char) (h : '.' ∈ g) :
    g.all isPySpace = false := by
  cases hall : g.all isPySpace
  · rfl
  · rw [List.all_eq_true] at hall
    have := hall '.' h
    simp [isPySpace, isPySpaceN] at this

theorem length_pyTake_le (l : List Char) (m : Int) (h : 0 ≤ m) :
    (pyTake l m).length ≤ m.toNat := by
  unfold pyTake
  rw [if_pos h]
  simp [List.length_take]

/-- C9 counterexample: the input consisting of the letter a, a dot and 300
letters b (HTML-free, so the embedding is exact) sanitizes to 301
characters, refuting the claim that the result never exceeds 255: the
length cap subtracts the extension length from 255 and a 300-character
extension drives the name budget negative, slicing from the end instead of
clamping to zero. -/
theorem claim_C9_counterexample :
    255 < (sanitize_filename ('a' :: '.' :: List.replicate 300 'b')).length := by decide

/-- C9 amended: for every HTML-free input, sanitize_filename preserves the
recoverable trailing extension of the cleaned name, and its result has
length at most 255 whenever that extension is at most 254 characters long
or the cleaned name has no extension at all; in particular a 300-character
name ending in .txt sanitizes to at most 255 characters still ending in
.txt (only an extension longer than 254 characters can break the cap). -/
theorem claim_C9_sanitize_cap (l : List Char) (_hfree : htmlFree l) :
    (rsplitDot (cleanedName l) = none → (sanitize_filename l).length ≤ 255) ∧
    (∀ name ext, rsplitDot (cleanedName l) = some (name, ext) →
      (∃ t, sanitize_filename l = t ++ '.' :: ext) ∧
      (ext.length ≤ 254 → (sanitize_filename l).length ≤ 255)) := by
  constructor
  · intro hs
    unfold sanitize_filename
    dsimp only
    by_cases h255 : 255 < (cleanedName l).length
    · rw [if_pos h255, hs]
      split
      · decide
      · simp [List.length_take]
    · rw [if_neg h255]
      split
      · decide
      · omega
  · intro name ext hs
    have hdecomp : cleanedName l = name ++ '.' :: ext :=
      rsplitDot_eq_some _ name ext hs
    unfold sanitize_filename
    dsimp only
    by_cases h255 : 255 < (cleanedName l).length
    · rw [if_pos h255, hs]
      have hdot : '.' ∈ pyTake name (255 - (ext.length : Int) - 1) ++ '.' :: ext := by
        apply List.mem_append_right
        exact List.mem_cons_self _ _
      rw [all_pyspace_false_of_dot _ hdot]
      simp only [Bool.false_eq_true, if_false]
      refine ⟨⟨pyTake name (255 - (ext.length : Int) - 1), rfl⟩, ?_⟩
      intro hext
      have hm : (0 : Int) ≤ 255 - (ext.length : Int) - 1 := by omega
      have htake := length_pyTake_le name (255 - (ext.length : Int) - 1) hm
      have htn : (255 - (ext.length : Int) - 1).toNat = 254 - ext.length := by omega
      rw [htn] at htake
      simp only [List.length_append, List.length_cons]
      omega
    · rw [if_neg h255]
      have hdot : '.' ∈ cleanedName l := by
        rw [hdecomp]
        exact List.mem_append_right _ (List.mem_cons_self _ _)
      rw [all_pyspace_false_of_dot _ hdot]
      simp only [Bool.false_eq_true, if_false]
      exact ⟨⟨name, hdecomp⟩, fun _ => by omega⟩

/-- Witness for C9: a 300-character name ending in .txt sanitizes to at
most 255 characters and still ends in .txt, by the amended theorem applied
at that concrete input. -/
theorem claim_C9_witness :
    (sanitize_filename (List.replicate 296 'a' ++ ".txt".toList)).length ≤ 255 ∧
    ∃ t, sanitize_filename (List.replicate 296 'a' ++ ".txt".toList) =
      t ++ '.' :: "txt".toList := by
  have h := (claim_C9_sanitize_cap (List.replicate 296 'a' ++ ".txt".toList)
    (by decide)).2 (List.replicate 296 'a') "txt".toList (by decide)
  exact ⟨h.2 (by decide), h.1⟩
